import Mathlib

/-!
Shallow embedding of the knowledge-tree summarizer and the plan-driven
fan-out question pipeline of `src/course_exam_agent.ts`.

Conventions of the embedding:
* JavaScript strings are modelled as Lean `String` (lists of characters);
  the claims touched here only involve BMP characters, for which JS UTF-16
  lengths and Lean character counts agree.
* JS numbers appearing in the embedded code (question counts, difficulties)
  are modelled as `Int`; the source only compares and clamps them.
* `undefined` is modelled as `Option.none`; JS property access on an object
  returns `none` when the key is absent.
* `JSON.parse` / `JSON.stringify` are platform primitives, not repository
  code: parsing outcomes are passed to `summarizeKnowledgeContent` as an
  explicit `Option JsVal` argument (`none` models the `catch` branch), and
  stringification is modelled by `jsonStringify` below.
-/

namespace CourseExamAgent

/-! ### JS string primitives -/

/-- JS whitespace test, as used by the regexes `/\s+/` in the source
(restricted to the ASCII whitespace the repository data actually uses). -/
def wsChar (c : Char) : Bool := c.isWhitespace

/-- Model of `text.replace(/\s+/g, ' ')`: every maximal run of whitespace
characters becomes a single space. The flag records whether the previous
character belonged to a whitespace run (whose single `' '` has already been
emitted). -/
def squeezeWsAux : Bool → List Char → List Char
  | _, [] => []
  | afterWs, c :: cs =>
    if wsChar c then
      if afterWs then squeezeWsAux true cs
      else ' ' :: squeezeWsAux true cs
    else c :: squeezeWsAux false cs

/-- Model of `text.replace(/\s+/g, ' ')`. -/
def squeezeWs (l : List Char) : List Char := squeezeWsAux false l

/-- Drop a trailing whitespace run (the tail half of `String.prototype.trim`). -/
def trimTrail : List Char → List Char
  | [] => []
  | c :: cs =>
    match trimTrail cs with
    | [] => if wsChar c then [] else [c]
    | r => c :: r

/-- Model of `String.prototype.trim`. -/
def trimWs (l : List Char) : List Char := trimTrail (l.dropWhile wsChar)

/-- Model of `text.replace(/\s+/g, ' ').trim()`, the cleaning step of `condenseText`. -/
def cleanChars (l : List Char) : List Char := trimWs (squeezeWs l)

/-- String form of the cleaning step. -/
def cleanString (s : String) : String := String.mk (cleanChars s.data)

/-- Model of `condenseText` from `course_exam_agent.ts` (lines 70-76):
collapse whitespace, trim, and if the result is longer than `maxLength`
keep `maxLength - 1` characters and append the one-character ellipsis `…`.
`cleaned.slice(0, maxLength - 1)` is JS slicing: for `maxLength = 0` the
end index is `-1`, which JS interprets as `cleaned.length - 1`. -/
def condenseText (text : String) (maxLength : Nat) : String :=
  let cleaned := cleanChars text.data
  if cleaned.length ≤ maxLength then String.mk cleaned
  else
    let cut := if maxLength = 0 then cleaned.length - 1 else maxLength - 1
    String.mk (cleaned.take cut) ++ "…"

/-- Model of `trimmed.replace(/\s+/g, '')`: remove every whitespace character. -/
def stripWs (s : String) : String := String.mk (s.data.filter (fun c => !wsChar c))

/-- String form of `String.prototype.trim`. -/
def jsTrim (s : String) : String := String.mk (trimWs s.data)

/-- Model of `String.prototype.toLowerCase`, restricted to the ASCII case mapping. -/
def lowerStr (s : String) : String := String.mk (s.data.map Char.toLower)

/-- Prefix test on character lists. -/
def listPre : List Char → List Char → Bool
  | [], _ => true
  | _ :: _, [] => false
  | a :: as, b :: bs => a == b && listPre as bs

/-- Substring test on character lists. -/
def listSub (needle : List Char) : List Char → Bool
  | [] => needle.isEmpty
  | c :: t => listPre needle (c :: t) || listSub needle t

/-- Model of `hay.includes(needle)` of JS. -/
def strContains (hay needle : String) : Bool := listSub needle.data hay.data

/-- Model of `Array.prototype.join(sep)` of JS. -/
def joinSep (sep : String) : List String → String
  | [] => ""
  | [s] => s
  | s :: rest => s ++ sep ++ joinSep sep rest

/-- Model of `Array.prototype.map` with the element index, starting at `i`. -/
def mapWithIndex (f : Nat → α → β) : Nat → List α → List β
  | _, [] => []
  | i, a :: as => f i a :: mapWithIndex f (i + 1) as

/-- Does the character list avoid starting with whitespace? (Used to
characterise the output of the cleaning step.) -/
def headNonWs : List Char → Bool
  | [] => true
  | c :: _ => !wsChar c

/-- Is every whitespace character in the list a plain space? -/
def allWsSpace (l : List Char) : Bool := l.all (fun c => !wsChar c || c == ' ')

/-- Are no two adjacent characters both whitespace? -/
def noDouble : List Char → Bool
  | [] => true
  | [_] => true
  | a :: b :: t => !(wsChar a && wsChar b) && noDouble (b :: t)

/-! ### Model of parsed JSON values -/

/-- A JavaScript value as produced by `JSON.parse` (numbers restricted to
integers: the embedded code never does arithmetic on parsed numbers beyond
converting them to strings). -/
inductive JsVal where
  | vnull : JsVal
  | vbool : Bool → JsVal
  | vnum : Int → JsVal
  | vstr : String → JsVal
  | varr : List JsVal → JsVal
  | vobj : List (String × JsVal) → JsVal
deriving Inhabited, Repr

/-- JS property access `obj[k]` on the fields of an object: `none` models
`undefined`. Objects from `JSON.parse` have distinct keys, so first-match
lookup is exact. -/
def objGet (fields : List (String × JsVal)) (k : String) : Option JsVal :=
  (fields.find? (fun kv => kv.1 == k)).map (fun kv => kv.2)

/-- Escaping of a character inside a JSON string literal (the cases that can
actually arise in textual knowledge data). -/
def escapeChar (c : Char) : String :=
  if c = '"' then "\\\""
  else if c = '\\' then "\\\\"
  else if c = '\n' then "\\n"
  else if c = '\t' then "\\t"
  else if c = '\r' then "\\r"
  else String.mk [c]

/-- Escaping of a JSON string literal body. -/
def escapeString (s : String) : String := String.join (s.data.map escapeChar)

mutual
/-- Model of the platform primitive `JSON.stringify` (which never throws on
values coming from `JSON.parse`; the `try`/`catch` in `safeToString` only
guards circular references, which cannot exist in this inductive model). -/
def jsonStringify : JsVal → String
  | .vnull => "null"
  | .vbool b => if b then "true" else "false"
  | .vnum n => toString n
  | .vstr s => "\"" ++ escapeString s ++ "\""
  | .varr es => "[" ++ joinSep "," (stringifyList es) ++ "]"
  | .vobj fs => "\x7b" ++ joinSep "," (stringifyFields fs) ++ "\x7d"

/-- Stringify the elements of a JSON array. -/
def stringifyList : List JsVal → List String
  | [] => []
  | v :: vs => jsonStringify v :: stringifyList vs

/-- Stringify the fields of a JSON object. -/
def stringifyFields : List (String × JsVal) → List String
  | [] => []
  | (k, v) :: fs => ("\"" ++ escapeString k ++ "\":" ++ jsonStringify v) :: stringifyFields fs
end

/-- Model of `safeToString` from `course_exam_agent.ts` (lines 78-93), taking a
possibly-`undefined` value. -/
def safeToString : Option JsVal → String
  | none => ""
  | some .vnull => ""
  | some (.vstr s) => s
  | some (.vnum n) => toString n
  | some (.vbool b) => if b then "true" else "false"
  | some (.varr es) => jsonStringify (.varr es)
  | some (.vobj fs) => jsonStringify (.vobj fs)

/-- Is a value skipped by the JS nullish-coalescing operator `??`
(absent, i.e. `undefined`, or `null`)? -/
def isNullish : Option JsVal → Bool
  | none => true
  | some .vnull => true
  | some _ => false

/-- The JS nullish-coalescing operator `a ?? b`. -/
def jsNullish (a b : Option JsVal) : Option JsVal :=
  match a with
  | none => b
  | some .vnull => b
  | some v => some v

/-! ### Tree traversal of `summarizeKnowledgeContent` -/

/-- Model of `node.id ?? node.name ?? node.title ?? node.label ?? ''`
(line 125 of the source). -/
def labelCandidate (fields : List (String × JsVal)) : JsVal :=
  (jsNullish (objGet fields "id")
    (jsNullish (objGet fields "name")
      (jsNullish (objGet fields "title")
        (jsNullish (objGet fields "label") (some (JsVal.vstr "")))))).getD
    (JsVal.vstr "")

/-- The synthetic fallback label `` `未命名节点${path.length + 1}` ``. -/
def placeholderLabel (path : List String) : String :=
  "未命名节点" ++ toString (path.length + 1)

/-- Model of `safeToString(titleCandidate).trim() || placeholder` (line 126). -/
def nodeTitle (fields : List (String × JsVal)) (path : List String) : String :=
  let t := jsTrim (safeToString (some (labelCandidate fields)))
  if t = "" then placeholderLabel path else t

/-- Model of `Array.isArray(node.children) ? node.children : []` (line 129). -/
def childrenOf (fields : List (String × JsVal)) : List JsVal :=
  match objGet fields "children" with
  | some (.varr l) => l
  | _ => []

/-- The description chain (JS keys "知识点描述", "描述", "description"
joined by nullish coalescing) condensed to
240 characters (lines 130-131). -/
def descriptionOf (fields : List (String × JsVal)) : String :=
  condenseText
    (safeToString
      (jsNullish (objGet fields "知识点描述")
        (jsNullish (objGet fields "描述") (objGet fields "description"))))
    240

/-- Model of `text.split('\n')[0] ?? text` (line 137): the text before the first
newline. -/
def firstLine (s : String) : String := String.mk (s.data.takeWhile (fun c => c != '\n'))

/-- The sample-question snippets of a node (lines 133-140): values of keys
matching `/^考试题目/`, first line, condensed to 160, empty snippets
dropped. -/
def sampleQuestionsOf (fields : List (String × JsVal)) : List String :=
  (((fields.map (fun kv => kv.1)).filter
      (fun k => listPre "考试题目".data k.data)).map
    (fun k => condenseText (firstLine (safeToString (objGet fields k))) 160)).filter
    (fun s => s.length > 0)

/-- A flattened leaf (`FlattenedKnowledge` in the source). -/
structure FlattenedKnowledge where
  path : List String
  title : String
  description : String
  sampleQuestions : List String
deriving Inhabited, Repr, DecidableEq

/-- A recorded branch (`branchInfo` entries in the source). -/
structure BranchInfo where
  path : List String
  title : String
  childCount : Nat
deriving Inhabited, Repr, DecidableEq

/-- Accumulated traversal output: `leafNodes` and `branchInfo`, each in push
order. -/
structure TraverseAcc where
  leaves : List FlattenedKnowledge
  branches : List BranchInfo
deriving Inhabited, Repr, DecidableEq

mutual
/-- The recursive `traverse` closure of `summarizeKnowledgeContent`
(lines 120-150). Strings, numbers, booleans and `null` fail the
`typeof node` / truthiness guard and are skipped. A JSON array
in node position passes the guard, but all its property reads
(`id`, `children`, ...) yield `undefined`, so it is recorded as a leaf with
the synthetic title. -/
def traverse : JsVal → List String → TraverseAcc → TraverseAcc
  | .vobj fields, path, acc =>
    let currentTitle := nodeTitle fields path
    let currentPath := path ++ [currentTitle]
    let children := childrenOf fields
    let description := descriptionOf fields
    let sampleQuestions := sampleQuestionsOf fields
    if children.isEmpty then
      { acc with
        leaves := acc.leaves ++
          [{ path := currentPath, title := currentTitle,
             description := description, sampleQuestions := sampleQuestions }] }
    else
      let acc1 :=
        { acc with
          branches := acc.branches ++
            [{ path := currentPath, title := currentTitle,
               childCount := children.length }] }
      traverseChildren children currentPath acc1
  | .varr _, path, acc =>
    -- a JSON array in node position: all property reads yield `undefined`

    { acc with
      leaves := acc.leaves ++
        [{ path := path ++ [placeholderLabel path], title := placeholderLabel path,
           description := descriptionOf [], sampleQuestions := sampleQuestionsOf [] }] }
  | _, _, acc => acc
termination_by v _ _ => sizeOf v
decreasing_by
  · have hnil : ∀ gs : List (String × JsVal),
        sizeOf ([] : List JsVal) < sizeOf (JsVal.vobj gs) := by
      intro gs
      have hf : 1 ≤ sizeOf gs := by cases gs <;> simp_arith
      simp only [JsVal.vobj.sizeOf_spec]
      have h : sizeOf ([] : List JsVal) = 1 := rfl
      omega
    have hget : ∀ (k : String) (v : JsVal), objGet fields k = some v →
        sizeOf v < sizeOf (JsVal.vobj fields) := by
      intro k v h
      unfold objGet at h
      rcases hf : fields.find? (fun kv => kv.1 == k) with _ | kv
      · rw [hf] at h; exact absurd h (by simp)
      · rw [hf] at h
        have hmem := List.mem_of_find?_eq_some hf
        have h1 : sizeOf kv < sizeOf fields := List.sizeOf_lt_of_mem hmem
        rcases kv with ⟨a, b⟩
        have hb : b = v := by simpa using h
        subst hb
        simp only [JsVal.vobj.sizeOf_spec]
        have h2 : sizeOf b < sizeOf (a, b) := by simp
        omega
    show sizeOf (childrenOf fields) < sizeOf (JsVal.vobj fields)
    unfold childrenOf
    rcases hg : objGet fields "children" with _ | v
    · exact hnil fields
    · have hv := hget _ _ hg
      cases v with
      | varr l =>
        show sizeOf l < sizeOf (JsVal.vobj fields)
        simp only [JsVal.varr.sizeOf_spec] at hv
        omega
      | vnull => exact hnil fields
      | vbool b => exact hnil fields
      | vnum n => exact hnil fields
      | vstr s => exact hnil fields
      | vobj fs => exact hnil fields

/-- Model of `children.forEach((child) => traverse(child, currentPath))`. -/
def traverseChildren : List JsVal → List String → TraverseAcc → TraverseAcc
  | [], _, acc => acc
  | v :: vs, path, acc => traverseChildren vs path (traverse v path acc)
termination_by l _ _ => sizeOf l
decreasing_by
  all_goals simp_arith
end

/-- Model of `Array.isArray(parsed) ? parsed : [parsed]` (lines 113-115). -/
def rootNodes : JsVal → List JsVal
  | .varr l => l
  | v => [v]

/-! ### Detail map construction (lines 174-215) -/

/-- Insertion-ordered deduplication: the contents of a JS `Set` built by
successive `add` calls, iterated with `forEach`. -/
def dedupFirst (seen : List String) : List String → List String
  | [] => []
  | s :: rest =>
    if seen.contains s then dedupFirst seen rest
    else s :: dedupFirst (s :: seen) rest

/-- The string-keyed object `detailMap` is modelled as an insertion-ordered
association list; `m[k]` is first-match lookup. -/
def mapGet (m : List (String × String)) (k : String) : Option String :=
  (m.find? (fun kv => kv.1 == k)).map (fun kv => kv.2)

/-- JS truthiness of `m[k]` (`undefined` and the empty string are falsy). -/
def truthyStr : Option String → Bool
  | none => false
  | some s => !(s == "")

/-- The object assignment `m[k] = v`: update in place when the key exists,
append otherwise. -/
def mapSet (m : List (String × String)) (k v : String) : List (String × String) :=
  if (m.find? (fun kv => kv.1 == k)).isSome then
    m.map (fun kv => if kv.1 == k then (kv.1, v) else kv)
  else m ++ [(k, v)]

/-- One guarded registration `if (key && !detailMap[key]) detailMap[key] = v`. -/
def applyReg (m : List (String × String)) (reg : String × String) :
    List (String × String) :=
  if reg.1 != "" && !(truthyStr (mapGet m reg.1)) then mapSet m reg.1 reg.2 else m

/-- Folding a sequence of guarded registrations over a map. -/
def applyRegs (m : List (String × String)) (regs : List (String × String)) :
    List (String × String) :=
  regs.foldl applyReg m

/-- Model of `leaf.path.slice(-2)`. -/
def lastTwo (l : List String) : List String := l.drop (l.length - 2)

/-- The composed detail string of a highlighted leaf (lines 176-185). -/
def leafDetailString (idx : Nat) (leaf : FlattenedKnowledge) : String :=
  joinSep " | "
    ([toString (idx + 1) ++ ". " ++ joinSep " > " leaf.path]
      ++ (if leaf.description != "" then ["描述：" ++ leaf.description] else [])
      ++ (if leaf.sampleQuestions.length > 0 then
            ["典型考题：" ++ leaf.sampleQuestions.headD ""] else []))

/-- The variant key set of a leaf (lines 187-190), in `Set` insertion order. -/
def leafVariants (leaf : FlattenedKnowledge) : List String :=
  dedupFirst []
    [jsTrim leaf.title, jsTrim (joinSep " > " leaf.path),
     jsTrim (joinSep " > " (lastTwo leaf.path))]

/-- The guarded registrations attempted for one leaf (lines 192-200): for
each variant, the key itself and its whitespace-stripped form. -/
def leafRegs (idx : Nat) (leaf : FlattenedKnowledge) : List (String × String) :=
  ((leafVariants leaf).map
    (fun v => [(v, leafDetailString idx leaf), (stripWs v, leafDetailString idx leaf)])).flatten

/-- The registrations attempted by the leaf loop, which only visits
`leafNodes.slice(0, 60)`. -/
def leafRegsAll (leaves : List FlattenedKnowledge) : List (String × String) :=
  (mapWithIndex (fun i leaf => leafRegs i leaf) 0 (leaves.take 60)).flatten

/-- The detail string and registrations of one branch (lines 205-215). -/
def branchDetailString (b : BranchInfo) : String :=
  joinSep " > " b.path ++ "（子节点 " ++ toString b.childCount ++ " 个）"

/-- The guarded registrations attempted for one branch. -/
def branchRegs (b : BranchInfo) : List (String × String) :=
  [(jsTrim (joinSep " > " b.path), branchDetailString b),
   (stripWs (jsTrim (joinSep " > " b.path)), branchDetailString b)]

/-- All guarded registrations in the order the source attempts them:
the first 60 leaves (leaf loop, lines 175-203), then every branch
(branch loop, lines 205-215). -/
def registrations (acc : TraverseAcc) : List (String × String) :=
  leafRegsAll acc.leaves ++ (acc.branches.map branchRegs).flatten

/-- The finished `detailMap`. -/
def buildDetailMap (acc : TraverseAcc) : List (String × String) :=
  applyRegs [] (registrations acc)

/-! ### Outline / highlights assembly (lines 154-228) -/

/-- Model of `branch.path.every((segment, idx) => leaf.path[idx] === segment)`:
out-of-range indexing yields `undefined`, which never equals a string. -/
def pathHasPre : List String → List String → Bool
  | [], _ => true
  | _ :: _, [] => false
  | a :: as, b :: bs => a == b && pathHasPre as bs

/-- The outline text (lines 154-172, joined at line 224). -/
def outlineOf (acc : TraverseAcc) : String :=
  let header := "知识结构共计 " ++ toString acc.leaves.length ++ " 个末级知识点。"
  let tops := acc.branches.filter (fun b => b.path.length == 2)
  let lines := mapWithIndex
    (fun i b =>
      let under := acc.leaves.filter (fun leaf => pathHasPre b.path leaf.path)
      let reps := joinSep "、" ((under.take 3).map (fun leaf => leaf.title))
      toString (i + 1) ++ ". " ++ joinSep " > " b.path ++ "（叶子知识点 " ++
        toString under.length ++ " 个）" ++
        (if reps != "" then "，示例：" ++ reps else ""))
    0 tops
  joinSep "\n" (header :: lines)

/-- Model of `highlightEntries` (lines 175-203): the detail strings of the first 60
leaves. -/
def highlightEntries (leaves : List FlattenedKnowledge) : List String :=
  mapWithIndex (fun i leaf => leafDetailString i leaf) 0 (leaves.take 60)

/-- Model of `leafHighlights` (lines 217-219). -/
def leafHighlightsOf (raw : String) (acc : TraverseAcc) : String :=
  let entries := highlightEntries acc.leaves
  if entries.length != 0 then
    "重点叶子知识点节选（共 " ++ toString acc.leaves.length ++ " 个，展示 " ++
      toString entries.length ++ " 个）：\n" ++ joinSep "\n" entries
  else "知识点原始数据：" ++ condenseText raw 1800

/-- The result record of `summarizeKnowledgeContent`. -/
structure KnowledgeParseResult where
  outline : String
  leafHighlights : String
  detailMap : List (String × String)
  condensedRaw : String
deriving Inhabited, Repr, DecidableEq

/-- Model of `summarizeKnowledgeContent` (lines 95-229). `raw : Option String` models
the `string | undefined` parameter; `parsed` is the outcome of the platform
primitive `JSON.parse(raw)`, passed explicitly (`none` models the thrown
`SyntaxError` caught at line 103). -/
def summarizeKnowledgeContent (raw : Option String) (parsed : Option JsVal) :
    KnowledgeParseResult :=
  match raw with
  | none => { outline := "", leafHighlights := "", detailMap := [], condensedRaw := "" }
  | some r =>
    if r = "" then
      { outline := "", leafHighlights := "", detailMap := [], condensedRaw := "" }
    else
      match parsed with
      | none =>
        let condensed := condenseText r 1800
        { outline := condensed, leafHighlights := condensed, detailMap := [],
          condensedRaw := condensed }
      | some p =>
        let acc := traverseChildren (rootNodes p) [] { leaves := [], branches := [] }
        { outline := outlineOf acc,
          leafHighlights := leafHighlightsOf r acc,
          detailMap := buildDetailMap acc,
          condensedRaw := condenseText r 1800 }

/-! ### Detail lookup (lines 231-269) -/

/-- Model of `lookupKnowledgeDetail` exactly following the nested early returns of the
source. -/
def lookupKnowledgeDetail (knowledgeMap : List (String × String)) (point : String) :
    Option String :=
  let trimmed := jsTrim point
  if trimmed = "" then none
  else
    let normalized := stripWs trimmed
    if truthyStr (mapGet knowledgeMap trimmed) then mapGet knowledgeMap trimmed
    else if truthyStr (mapGet knowledgeMap normalized) then mapGet knowledgeMap normalized
    else
      match knowledgeMap.find? (fun kv => kv.1 == trimmed) with
      | some kv => some kv.2
      | none =>
        match knowledgeMap.find?
            (fun kv => strContains kv.1 trimmed || strContains trimmed kv.1) with
        | some kv => some kv.2
        | none =>
          match knowledgeMap.find?
              (fun kv => strContains (lowerStr kv.1) (lowerStr trimmed)) with
          | some kv => some kv.2
          | none => none

/-- Stage 1 of the lookup as the specification describes it: truthy exact
match on the trimmed query. -/
def lookupStage1 (m : List (String × String)) (t : String) : Option String :=
  if truthyStr (mapGet m t) then mapGet m t else none

/-- Stage 2: truthy exact match on the whitespace-stripped query. -/
def lookupStage2 (m : List (String × String)) (t : String) : Option String :=
  if truthyStr (mapGet m (stripWs t)) then mapGet m (stripWs t) else none

/-- Stage 3: exact key-equality scan over the entries. -/
def lookupStage3 (m : List (String × String)) (t : String) : Option String :=
  (m.find? (fun kv => kv.1 == t)).map (fun kv => kv.2)

/-- Stage 4: bidirectional substring containment, in insertion order. -/
def lookupStage4 (m : List (String × String)) (t : String) : Option String :=
  (m.find? (fun kv => strContains kv.1 t || strContains t kv.1)).map (fun kv => kv.2)

/-- Stage 5: case-insensitive substring containment. -/
def lookupStage5 (m : List (String × String)) (t : String) : Option String :=
  (m.find? (fun kv => strContains (lowerStr kv.1) (lowerStr t))).map (fun kv => kv.2)

/-- First defined result of a stage list. -/
def firstSome : List (Option String) → Option String
  | [] => none
  | o :: rest =>
    match o with
    | some v => some v
    | none => firstSome rest

/-- The lookup as the specification words it: the five stages tried in fixed
order, the first stage yielding a result wins. -/
def lookupStaged (m : List (String × String)) (point : String) : Option String :=
  let t := jsTrim point
  if t = "" then none
  else
    firstSome
      [lookupStage1 m t, lookupStage2 m t, lookupStage3 m t,
       lookupStage4 m t, lookupStage5 m t]

/-! ### Plan-driven fan-out pipeline (lines 271-322 and 445-493) -/

/-- The question-type enumeration. -/
inductive QuestionType where
  | SingleChoice
  | MultipleChoices
  | ShortAnswer
deriving Inhabited, Repr, DecidableEq

/-- Model of `QUESTION_TYPE_LABEL` (lines 35-39). -/
def QUESTION_TYPE_LABEL : QuestionType → String
  | .SingleChoice => "单选题"
  | .MultipleChoices => "多选题"
  | .ShortAnswer => "简答题"

/-- Model of `QUESTION_TYPE_PROBLEM_TYPE` (lines 41-45). -/
def QUESTION_TYPE_PROBLEM_TYPE : QuestionType → Nat
  | .SingleChoice => 1
  | .MultipleChoices => 2
  | .ShortAnswer => 5

/-- Model of `ExamPlanItem` (lines 18-28). -/
structure ExamPlanItem where
  mergedLabel : String
  knowledgePoints : List String
  questionType : QuestionType
  questionCount : Int
  difficulty : Int
  focus : String
  rationale : String
  expectedSkills : List String
  answerExpectations : String
deriving Inhabited, Repr, DecidableEq

/-- Model of `userElement` (lines 8-14). -/
structure UserElement where
  grade : Option String
  major_background : Option String
  grasp_level : Option String
  major : Option String
  history : Option (List String)
deriving Inhabited, Repr, DecidableEq

/-- The empty object `{}` used as the fallback student profile. -/
def emptyUser : UserElement :=
  { grade := none, major_background := none, grasp_level := none, major := none,
    history := none }

/-- Model of `formatStudentProfile` (lines 271-282); `user.history?.length` is truthy
only for a present non-empty list. -/
def formatStudentProfile (user : UserElement) : String :=
  let profileSegments :=
    ["年级：" ++ user.grade.getD "未提供",
     "专业：" ++ user.major.getD "未提供",
     "学术背景：" ++ user.major_background.getD "未提供",
     "掌握程度：" ++ user.grasp_level.getD "未提供"]
  let profileSegments :=
    match user.history with
    | some l => if l.length != 0 then profileSegments ++ ["历史薄弱点：" ++ joinSep "； " l]
                else profileSegments
    | none => profileSegments
  joinSep "； " profileSegments

/-- The parameter record of `buildQuestionInstruction` (lines 284-291);
`rawKnowledge = ""` models the absent/empty case (the source tests
truthiness). -/
structure InstructionParams where
  course : String
  planItem : ExamPlanItem
  planStrategy : String
  studentProfile : String
  rawKnowledge : String
  order : Nat
deriving Inhabited, Repr, DecidableEq

/-- The optional knowledge-context line of the instruction (lines 307-311):
present only for truthy `rawKnowledge`, truncated to its first 2000
characters plus `"..."` when longer than 2000. -/
def knowledgeSectionParts (rawKnowledge : String) : List String :=
  if rawKnowledge != "" then
    ["相关知识点摘要：\n" ++
      (if rawKnowledge.length > 2000 then String.mk (rawKnowledge.data.take 2000) ++ "..."
       else rawKnowledge)]
  else []

/-- The `base` array of `buildQuestionInstruction` (lines 293-320), in push
order. -/
def instructionParts (p : InstructionParams) : List String :=
  ["课程：" ++ p.course,
   "学生画像：" ++ p.studentProfile,
   "命题策略：" ++ (if p.planStrategy != "" then p.planStrategy
                    else "关注学生薄弱点，保持较高区分度"),
   "重点考查组合：" ++ p.planItem.mergedLabel,
   "覆盖知识点：" ++ joinSep "； " p.planItem.knowledgePoints,
   "目标能力：" ++ joinSep "； " p.planItem.expectedSkills,
   "题型：" ++ QUESTION_TYPE_LABEL p.planItem.questionType ++ "（第 " ++
     toString p.order ++ " 题）",
   "难度要求：" ++ toString p.planItem.difficulty ++
     "/5，务必具有挑战性，避免直接记忆型问答",
   "命题聚焦：" ++ p.planItem.focus,
   "答案要点：" ++ p.planItem.answerExpectations,
   "命题理由：" ++ p.planItem.rationale]
  ++ knowledgeSectionParts p.rawKnowledge
  ++ ["整体要求：结合学生背景设计高阶思维问题，确保题干清晰并能拉开成绩分布，避免过于基础的直接记忆题。"]
  ++ (if p.planItem.questionType = QuestionType.ShortAnswer then
        ["该题需综合主观论述与必要计算步骤，明确给出评分要点。"]
      else [])

/-- Model of `buildQuestionInstruction` (line 321: `base.join('\n')`). -/
def buildQuestionInstruction (p : InstructionParams) : String :=
  joinSep "\n" (instructionParts p)

/-- The payload of `new Send(target, {...})` (lines 476-489). -/
structure Send where
  node : QuestionType
  planItem : ExamPlanItem
  planStrategy : String
  instructions : String
deriving Inhabited, Repr, DecidableEq

/-- A `Send` together with the order number that was passed to
`buildQuestionInstruction` for it (the number embedded in the
`题型：…（第 n 题）` line of the instruction). -/
structure TaggedSend where
  send : Send
  order : Nat
deriving Inhabited, Repr, DecidableEq

/-- The slice of the graph state read by `routeExamPlan`. -/
structure RouteState where
  courseTitle : Option String
  studentProfile : Option UserElement
  knowledgeMap : List (String × String)
  planStrategy : String
  examPlan : Option (List ExamPlanItem)
  knowledgeQuestionDigest : String
  knowledgeTree : String
deriving Inhabited, Repr, DecidableEq

/-- Model of `formatStudentProfile(state.studentProfile ?? {})` (line 450). -/
def profileOf (state : RouteState) : String :=
  formatStudentProfile (state.studentProfile.getD emptyUser)

/-- The knowledge-context text of a plan item (lines 456-472): distinct
successful lookups in point order (`detailSet` dedupes by detail string),
first 8 numbered; if none, `state.knowledgeQuestionDigest ||
state.knowledgeTree`. -/
def knowledgeContextFor (state : RouteState) (planItem : ExamPlanItem) : String :=
  let knowledgeDetails :=
    planItem.knowledgePoints.foldl
      (fun (acc : List String) point =>
        match lookupKnowledgeDetail state.knowledgeMap point with
        | some detail => if acc.contains detail then acc else acc ++ [detail]
        | none => acc)
      []
  if knowledgeDetails.length != 0 then
    "关联知识点精要：\n" ++
      joinSep "\n"
        (mapWithIndex (fun idx detail => toString (idx + 1) ++ ". " ++ detail) 0
          (knowledgeDetails.take 8))
  else if state.knowledgeQuestionDigest != "" then state.knowledgeQuestionDigest
  else state.knowledgeTree

/-- Model of `Math.max(1, Math.min(3, planItem.questionCount))` (line 454), as the
number of loop iterations. -/
def planCountOf (item : ExamPlanItem) : Nat := (max 1 (min 3 item.questionCount)).toNat

/-- The scatter tasks emitted for one plan item (lines 474-490), with the
counter value `startOrder` on entry; the `i`-th task uses order
`startOrder + 1 + i`. -/
def chunkFor (state : RouteState) (item : ExamPlanItem) (startOrder : Nat) :
    List TaggedSend :=
  let context := knowledgeContextFor state item
  (List.range (planCountOf item)).map
    (fun i =>
      let ord := startOrder + 1 + i
      { order := ord,
        send :=
          { node := item.questionType, planItem := item,
            planStrategy := state.planStrategy,
            instructions :=
              buildQuestionInstruction
                { course := state.courseTitle.getD "", planItem := item,
                  planStrategy := state.planStrategy,
                  studentProfile := profileOf state, rawKnowledge := context,
                  order := ord } } })

/-- The per-item task lists of `state.examPlan.flatMap(...)`, threading the
shared `questionOrder` counter (line 451: starts at 0, incremented before
each emission, never reset between items). -/
def routeChunksAux (state : RouteState) : Nat → List ExamPlanItem → List (List TaggedSend)
  | _, [] => []
  | c, item :: rest => chunkFor state item c :: routeChunksAux state (c + planCountOf item) rest

/-- The per-item task lists of the whole plan. -/
def routeChunks (state : RouteState) (plan : List ExamPlanItem) : List (List TaggedSend) :=
  routeChunksAux state 0 plan

/-- Model of `routeExamPlan` (lines 445-493), with each task still carrying its order
tag. -/
def routeExamPlanTagged (state : RouteState) : List TaggedSend :=
  match state.examPlan with
  | none => []
  | some plan =>
    if plan.length = 0 then []
    else (routeChunks state plan).flatten

/-- The emitted `Send` list of `routeExamPlan`. -/
def routeExamPlan (state : RouteState) : List Send :=
  (routeExamPlanTagged state).map (fun t => t.send)

/-! ### Difficulty enrichment of the three generation handlers -/

/-- One option of a choice question. -/
structure ChoiceOption where
  key : String
  value : String
deriving Inhabited, Repr, DecidableEq

/-- The structured model output of the single/multiple choice handlers. -/
structure ChoiceResponse where
  Body : String
  Options : List ChoiceOption
  Answer : List String
  difficulty : Int
  Remark : String
deriving Inhabited, Repr, DecidableEq

/-- The structured model output of the short-answer handler. -/
structure ShortAnswerResponse where
  Body : String
  difficulty : Int
  Remark : String
deriving Inhabited, Repr, DecidableEq

/-- The enriched question record returned by the choice handlers. -/
structure EnrichedChoiceQuestion where
  Body : String
  Options : List ChoiceOption
  Answer : List String
  difficulty : Int
  Remark : String
  qType : String        -- the JS field `Type` (a Lean keyword)
  TypeText : String
  ProblemType : Nat
deriving Inhabited, Repr, DecidableEq

/-- The enriched question record returned by the short-answer handler. -/
structure EnrichedShortAnswerQuestion where
  Body : String
  difficulty : Int
  Remark : String
  qType : String        -- the JS field `Type` (a Lean keyword)
  TypeText : String
  ProblemType : Nat
deriving Inhabited, Repr, DecidableEq

/-- The `enrichedResponse` of `SingleChoice` (lines 542-549). -/
def enrichSingleChoice (planItem : ExamPlanItem) (response : ChoiceResponse) :
    EnrichedChoiceQuestion :=
  { Body := response.Body, Options := response.Options, Answer := response.Answer,
    difficulty := max planItem.difficulty response.difficulty,
    Remark := response.Remark, qType := "SingleChoice",
    TypeText := QUESTION_TYPE_LABEL QuestionType.SingleChoice,
    ProblemType := QUESTION_TYPE_PROBLEM_TYPE QuestionType.SingleChoice }

/-- The `enrichedResponse` of `MultipleChoices` (lines 602-609; note the
source tags it "MultipleChoice", not "MultipleChoices"). -/
def enrichMultipleChoices (planItem : ExamPlanItem) (response : ChoiceResponse) :
    EnrichedChoiceQuestion :=
  { Body := response.Body, Options := response.Options, Answer := response.Answer,
    difficulty := max planItem.difficulty response.difficulty,
    Remark := response.Remark, qType := "MultipleChoice",
    TypeText := QUESTION_TYPE_LABEL QuestionType.MultipleChoices,
    ProblemType := QUESTION_TYPE_PROBLEM_TYPE QuestionType.MultipleChoices }

/-- The `enrichedResponse` of `ShortAnswer` (lines 654-661). -/
def enrichShortAnswer (planItem : ExamPlanItem) (response : ShortAnswerResponse) :
    EnrichedShortAnswerQuestion :=
  { Body := response.Body,
    difficulty := max planItem.difficulty response.difficulty,
    Remark := response.Remark, qType := "ShortAnswer", TypeText := "简答题",
    ProblemType := QUESTION_TYPE_PROBLEM_TYPE QuestionType.ShortAnswer }

/-! ### Claim-side definitions (written from the specification's wording,
to be compared against the source-derived definitions above) -/

/-- The labelling rule exactly as claim C1 words it: the first candidate
among `id`, `name`, `title`, `label` whose string form trims to a non-empty
string; the placeholder only when no candidate yields a non-empty string. -/
def claimLabelRule (fields : List (String × JsVal)) (path : List String) : String :=
  match (["id", "name", "title", "label"].map
      (fun k => jsTrim (safeToString (objGet fields k)))).find? (fun s => s != "") with
  | some s => s
  | none => placeholderLabel path

/-- The first present, non-`null` candidate among `id`, `name`, `title`,
`label` — a cascade formulation of the `??` chain, used to state the amended
form of claim C1. -/
def firstPresentNonNull (fields : List (String × JsVal)) : Option JsVal :=
  if !isNullish (objGet fields "id") then objGet fields "id"
  else if !isNullish (objGet fields "name") then objGet fields "name"
  else if !isNullish (objGet fields "title") then objGet fields "title"
  else if !isNullish (objGet fields "label") then objGet fields "label"
  else none

mutual
/-- The registration sequence claim C6 asserts: each node contributes its
registrations at its own pre-order position (branch path keys and leaf
variant keys interleaved in document order), with the running leaf counter
bounding leaf registrations to the first 60 leaves. The source instead
performs all leaf registrations before any branch registration; this
definition exists to state that difference. -/
def claimPreorderRegs : JsVal → List String → Nat → (List (String × String) × Nat)
  | .vobj fields, path, leafCount =>
    let currentTitle := nodeTitle fields path
    let currentPath := path ++ [currentTitle]
    let children := childrenOf fields
    if children.isEmpty then
      (if leafCount < 60 then
        leafRegs leafCount
          { path := currentPath, title := currentTitle,
            description := descriptionOf fields,
            sampleQuestions := sampleQuestionsOf fields }
      else [], leafCount + 1)
    else
      let rest := claimPreorderRegsList children currentPath leafCount
      (branchRegs
          { path := currentPath, title := currentTitle,
            childCount := children.length } ++ rest.1,
        rest.2)
  | .varr _, path, leafCount =>
    (if leafCount < 60 then
      leafRegs leafCount
        { path := path ++ [placeholderLabel path], title := placeholderLabel path,
          description := descriptionOf [], sampleQuestions := sampleQuestionsOf [] }
    else [], leafCount + 1)
  | _, _, leafCount => ([], leafCount)
termination_by v _ _ => sizeOf v
decreasing_by
  · have hnil : ∀ gs : List (String × JsVal),
        sizeOf ([] : List JsVal) < sizeOf (JsVal.vobj gs) := by
      intro gs
      have hf : 1 ≤ sizeOf gs := by cases gs <;> simp_arith
      simp only [JsVal.vobj.sizeOf_spec]
      have h : sizeOf ([] : List JsVal) = 1 := rfl
      omega
    have hget : ∀ (k : String) (v : JsVal), objGet fields k = some v →
        sizeOf v < sizeOf (JsVal.vobj fields) := by
      intro k v h
      unfold objGet at h
      rcases hf : fields.find? (fun kv => kv.1 == k) with _ | kv
      · rw [hf] at h; exact absurd h (by simp)
      · rw [hf] at h
        have hmem := List.mem_of_find?_eq_some hf
        have h1 : sizeOf kv < sizeOf fields := List.sizeOf_lt_of_mem hmem
        rcases kv with ⟨a, b⟩
        have hb : b = v := by simpa using h
        subst hb
        simp only [JsVal.vobj.sizeOf_spec]
        have h2 : sizeOf b < sizeOf (a, b) := by simp
        omega
    show sizeOf (childrenOf fields) < sizeOf (JsVal.vobj fields)
    unfold childrenOf
    rcases hg : objGet fields "children" with _ | v
    · exact hnil fields
    · have hv := hget _ _ hg
      cases v with
      | varr l =>
        show sizeOf l < sizeOf (JsVal.vobj fields)
        simp only [JsVal.varr.sizeOf_spec] at hv
        omega
      | vnull => exact hnil fields
      | vbool b => exact hnil fields
      | vnum n => exact hnil fields
      | vstr s => exact hnil fields
      | vobj fs => exact hnil fields

/-- Document-order registration sequence of a node list. -/
def claimPreorderRegsList :
    List JsVal → List String → Nat → (List (String × String) × Nat)
  | [], _, lc => ([], lc)
  | v :: vs, path, lc =>
    let first := claimPreorderRegs v path lc
    let rest := claimPreorderRegsList vs path first.2
    (first.1 ++ rest.1, rest.2)
termination_by l _ _ => sizeOf l
decreasing_by
  all_goals simp_arith
end

/-! ### Concrete inputs used by witnesses and counterexamples -/

/-- A concrete plan item requesting two single-choice questions. -/
def c2item : ExamPlanItem :=
  { mergedLabel := "组合X", knowledgePoints := ["B"],
    questionType := QuestionType.SingleChoice, questionCount := 2, difficulty := 4,
    focus := "聚焦", rationale := "理由", expectedSkills := ["分析"],
    answerExpectations := "要点" }

/-- A concrete route state holding one plan item. -/
def c2state : RouteState :=
  { courseTitle := some "课程A", studentProfile := none,
    knowledgeMap := [("B", "1. A > B")], planStrategy := "策略",
    examPlan := some [c2item], knowledgeQuestionDigest := "摘要",
    knowledgeTree := "树" }

/-- A non-JSON input longer than 1800 characters whose whitespace-collapsed
form is the single character `x`: `"x"` followed by 1800 spaces (not valid
JSON, so `JSON.parse` throws on it). -/
def c3raw : String := "x" ++ String.mk (List.replicate 1800 ' ')

/-- The knowledge tree of the C6 counterexample: a branch labelled `A` whose
only child is a leaf also labelled `A`, so the branch (earlier in pre-order)
and the leaf both register the key `"A"`. -/
def c6tree : JsVal :=
  .vobj [("name", .vstr "A"), ("children", .varr [.vobj [("name", .vstr "A")]])]

/-- A single-leaf tree used to witness the amended claim C6. -/
def c6leafTree : JsVal := .vobj [("name", .vstr "B")]

/-- Two sibling nodes with no recognizable label under an unlabelled root. -/
def c7tree : JsVal :=
  .vobj [("children", .varr [.vobj [("k", .vstr "v")], .vobj []])]

/-- A concrete plan item whose single knowledge point is absent from the
lookup map. -/
def c8item : ExamPlanItem :=
  { mergedLabel := "X", knowledgePoints := ["x"],
    questionType := QuestionType.ShortAnswer, questionCount := 1, difficulty := 4,
    focus := "F", rationale := "R", expectedSkills := ["S"],
    answerExpectations := "E" }

/-- A route state with an empty lookup map and a short digest `"D"`. -/
def c8state : RouteState :=
  { courseTitle := some "C", studentProfile := none, knowledgeMap := [],
    planStrategy := "", examPlan := some [c8item], knowledgeQuestionDigest := "D",
    knowledgeTree := "T" }

/-- A digest longer than 2000 characters. -/
def c8bigDigest : String := String.mk (List.replicate 2001 'a')

/-- The same route state with the over-long digest. -/
def c8stateBig : RouteState :=
  { courseTitle := some "C", studentProfile := none, knowledgeMap := [],
    planStrategy := "", examPlan := some [c8item],
    knowledgeQuestionDigest := c8bigDigest, knowledgeTree := "T" }

/-- The instruction parameters the first emitted task of `c8stateBig` is
built from. -/
def c8paramsBig : InstructionParams :=
  { course := "C", planItem := c8item, planStrategy := "",
    studentProfile := profileOf c8stateBig, rawKnowledge := c8bigDigest,
    order := 1 }

/-- The first task emitted for the plan of `c8stateBig`. -/
def c8taskBig : TaggedSend := ((routeChunks c8stateBig [c8item]).getD 0 []).getD 0 default

/-! ### Helper lemmas: string cleaning -/

theorem strLen_mk (l : List Char) : (String.mk l).length = l.length := rfl

theorem strLen_append (s t : String) : (s ++ t).length = s.length + t.length := by
  cases s with
  | mk a =>
    cases t with
    | mk b =>
      show (a ++ b).length = a.length + b.length
      exact List.length_append a b

theorem str_ne_empty_of_length_pos {s : String} (h : 0 < s.length) : s ≠ "" := by
  intro he
  subst he
  exact absurd h (by decide)

theorem squeezeWsAux_length (l : List Char) :
    ∀ b, (squeezeWsAux b l).length ≤ l.length := by
  induction l with
  | nil => intro b; simp [squeezeWsAux]
  | cons c cs ih =>
    intro b
    simp only [squeezeWsAux]
    split
    · split
      · exact Nat.le_succ_of_le (ih true)
      · simpa using ih true
    · simpa using ih false

theorem allWsSpace_cons (x : Char) (xs : List Char) :
    allWsSpace (x :: xs) = ((!wsChar x || x == ' ') && allWsSpace xs) := rfl

theorem noDouble_two {a b : Char} {t : List Char} (h : noDouble (a :: b :: t) = true) :
    (wsChar a && wsChar b) = false ∧ noDouble (b :: t) = true := by
  have h' : (!(wsChar a && wsChar b) && noDouble (b :: t)) = true := h
  simp only [Bool.and_eq_true, Bool.not_eq_true'] at h'
  exact h'

theorem squeezeWsAux_allWsSpace (l : List Char) :
    ∀ b, allWsSpace (squeezeWsAux b l) = true := by
  induction l with
  | nil => intro b; rfl
  | cons c cs ih =>
    intro b
    simp only [squeezeWsAux]
    split
    · split
      · exact ih true
      · rw [allWsSpace_cons, ih true]
        simp
    · next h =>
      rw [allWsSpace_cons, ih false]
      simp_all

theorem squeezeWsAux_headNonWs (l : List Char) :
    headNonWs (squeezeWsAux true l) = true := by
  induction l with
  | nil => rfl
  | cons c cs ih =>
    simp only [squeezeWsAux]
    split
    · exact ih
    · simp_all [headNonWs]

theorem noDouble_cons_of_headNonWs {x : List Char} (c : Char)
    (h1 : headNonWs x = true) (h2 : noDouble x = true) : noDouble (c :: x) = true := by
  cases x with
  | nil => rfl
  | cons y ys =>
    simp only [headNonWs, Bool.not_eq_true'] at h1
    simp only [noDouble, h1, Bool.and_false, Bool.not_false, Bool.true_and]
    exact h2

theorem noDouble_cons_of_nonWs {x : List Char} {c : Char}
    (h1 : wsChar c = false) (h2 : noDouble x = true) : noDouble (c :: x) = true := by
  cases x with
  | nil => rfl
  | cons y ys =>
    simp only [noDouble, h1, Bool.false_and, Bool.not_false, Bool.true_and]
    exact h2

theorem squeezeWsAux_noDouble (l : List Char) :
    ∀ b, noDouble (squeezeWsAux b l) = true := by
  induction l with
  | nil => intro b; rfl
  | cons c cs ih =>
    intro b
    simp only [squeezeWsAux]
    split
    · split
      · exact ih true
      · exact noDouble_cons_of_headNonWs ' ' (squeezeWsAux_headNonWs cs) (ih true)
    · next h => exact noDouble_cons_of_nonWs (by simpa using h) (ih false)

theorem noDouble_tail {c : Char} {l : List Char} (h : noDouble (c :: l) = true) :
    noDouble l = true := by
  cases l with
  | nil => rfl
  | cons d ds => exact (noDouble_two h).2

theorem allWsSpace_tail {c : Char} {l : List Char} (h : allWsSpace (c :: l) = true) :
    allWsSpace l = true := by
  rw [allWsSpace_cons, Bool.and_eq_true] at h
  exact h.2

theorem dropWhile_headNonWs (l : List Char) :
    headNonWs (l.dropWhile wsChar) = true := by
  induction l with
  | nil => rfl
  | cons c cs ih =>
    by_cases h : wsChar c = true
    · simpa [List.dropWhile, h] using ih
    · simp only [Bool.not_eq_true] at h
      simp [List.dropWhile, h, headNonWs]

theorem dropWhile_allWsSpace {l : List Char} (h : allWsSpace l = true) :
    allWsSpace (l.dropWhile wsChar) = true := by
  induction l with
  | nil => exact h
  | cons c cs ih =>
    by_cases hc : wsChar c = true
    · simpa [List.dropWhile, hc] using ih (allWsSpace_tail h)
    · simp only [Bool.not_eq_true] at hc
      simpa [List.dropWhile, hc] using h

theorem dropWhile_noDouble {l : List Char} (h : noDouble l = true) :
    noDouble (l.dropWhile wsChar) = true := by
  induction l with
  | nil => exact h
  | cons c cs ih =>
    by_cases hc : wsChar c = true
    · simpa [List.dropWhile, hc] using ih (noDouble_tail h)
    · simp only [Bool.not_eq_true] at hc
      simpa [List.dropWhile, hc] using h

theorem dropWhile_of_headNonWs {l : List Char} (h : headNonWs l = true) :
    l.dropWhile wsChar = l := by
  cases l with
  | nil => rfl
  | cons c cs =>
    simp only [headNonWs, Bool.not_eq_true'] at h
    simp [List.dropWhile, h]

theorem trimTrail_length (l : List Char) : (trimTrail l).length ≤ l.length := by
  induction l with
  | nil => simp [trimTrail]
  | cons c cs ih =>
    cases htt : trimTrail cs with
    | nil =>
      simp only [trimTrail, htt]
      by_cases hc : wsChar c = true <;> simp [hc]
    | cons r rs =>
      rw [htt] at ih
      simp only [trimTrail, htt, List.length_cons]
      simpa using ih

theorem trimTrail_head {l : List Char} {x : Char} {xs : List Char}
    (h : trimTrail l = x :: xs) : l.head? = some x := by
  cases l with
  | nil => exact absurd h (by simp [trimTrail])
  | cons c cs =>
    cases htt : trimTrail cs with
    | nil =>
      simp only [trimTrail, htt] at h
      by_cases hc : wsChar c = true
      · simp [hc] at h
      · simp only [hc, if_false] at h
        simp_all
    | cons r rs =>
      simp only [trimTrail, htt] at h
      cases h
      rfl

theorem trimTrail_headNonWs {l : List Char} (h : headNonWs l = true) :
    headNonWs (trimTrail l) = true := by
  cases l with
  | nil => exact h
  | cons c cs =>
    simp only [headNonWs, Bool.not_eq_true'] at h
    cases htt : trimTrail cs with
    | nil =>
      simp only [trimTrail, htt, h, if_false]
      simp [headNonWs, h]
    | cons r rs =>
      simp only [trimTrail, htt]
      simp [headNonWs, h]

theorem trimTrail_allWsSpace {l : List Char} (h : allWsSpace l = true) :
    allWsSpace (trimTrail l) = true := by
  induction l with
  | nil => exact h
  | cons c cs ih =>
    have hc : (!wsChar c || c == ' ') = true := by
      rw [allWsSpace_cons, Bool.and_eq_true] at h
      exact h.1
    cases htt : trimTrail cs with
    | nil =>
      simp only [trimTrail, htt]
      by_cases hw : wsChar c = true
      · rw [if_pos hw]
        rfl
      · rw [if_neg hw, allWsSpace_cons, hc]
        rfl
    | cons r rs =>
      have hrec := ih (allWsSpace_tail h)
      rw [htt] at hrec
      simp only [trimTrail, htt]
      rw [allWsSpace_cons, hrec, hc]
      rfl

theorem trimTrail_noDouble {l : List Char} (h : noDouble l = true) :
    noDouble (trimTrail l) = true := by
  induction l with
  | nil => exact h
  | cons c cs ih =>
    cases htt : trimTrail cs with
    | nil =>
      simp only [trimTrail, htt]
      by_cases hw : wsChar c = true <;> simp [hw, noDouble]
    | cons r rs =>
      have hrec := ih (noDouble_tail h)
      rw [htt] at hrec
      simp only [trimTrail, htt]
      cases cs with
      | nil => exact absurd htt (by simp [trimTrail])
      | cons d ds =>
        have hd : (d :: ds).head? = some r := trimTrail_head htt
        simp only [List.head?_cons, Option.some.injEq] at hd
        subst hd
        have h2 := noDouble_two h
        have h' : (!(wsChar c && wsChar d) && noDouble (d :: rs)) = true := by
          rw [h2.1, hrec]
          rfl
        exact h'

theorem trimTrail_idem (l : List Char) : trimTrail (trimTrail l) = trimTrail l := by
  induction l with
  | nil => rfl
  | cons c cs ih =>
    cases htt : trimTrail cs with
    | nil =>
      simp only [trimTrail, htt]
      by_cases hc : wsChar c = true
      · simp [hc, trimTrail]
      · simp [hc, trimTrail]
    | cons r rs =>
      rw [htt] at ih
      have h1 : trimTrail (c :: cs) = c :: r :: rs := by
        simp only [trimTrail, htt]
      rw [h1]
      show (match trimTrail (r :: rs) with
            | [] => if wsChar c = true then [] else [c]
            | q => c :: q) = c :: r :: rs
      rw [ih]

theorem trimWs_headNonWs (l : List Char) : headNonWs (trimWs l) = true :=
  trimTrail_headNonWs (dropWhile_headNonWs l)

theorem trimWs_length (l : List Char) : (trimWs l).length ≤ l.length :=
  Nat.le_trans (trimTrail_length _) (List.dropWhile_sublist wsChar).length_le

theorem cleanChars_length (l : List Char) : (cleanChars l).length ≤ l.length :=
  Nat.le_trans (trimWs_length _) (squeezeWsAux_length l false)

theorem squeezeWsAux_of_clean :
    ∀ (n : Nat) (l : List Char), l.length ≤ n → allWsSpace l = true →
      noDouble l = true → headNonWs l = true →
      squeezeWsAux false l = l ∧ squeezeWsAux true l = l := by
  intro n
  induction n with
  | zero =>
    intro l hlen _ _ _
    have h0 : l = [] := List.eq_nil_of_length_eq_zero (Nat.le_zero.mp hlen)
    subst h0
    exact ⟨rfl, rfl⟩
  | succ n ih =>
    intro l hlen hws hnd hhd
    cases l with
    | nil => exact ⟨rfl, rfl⟩
    | cons c cs =>
      simp only [headNonWs, Bool.not_eq_true'] at hhd
      have hkey : squeezeWsAux false cs = cs := by
        cases cs with
        | nil => rfl
        | cons d ds =>
          by_cases hd : wsChar d = true
          · have hsp : d = ' ' := by
              have h1 := (allWsSpace_tail hws)
              rw [allWsSpace_cons, Bool.and_eq_true] at h1
              have h2 := h1.1
              simp only [hd, Bool.not_true, Bool.false_or, beq_iff_eq] at h2
              exact h2
            have hnd2 : noDouble (d :: ds) = true := noDouble_tail hnd
            have hhd2 : headNonWs ds = true := by
              cases ds with
              | nil => rfl
              | cons e es =>
                have h3 := (noDouble_two hnd2).1
                rw [hd, Bool.true_and] at h3
                simp [headNonWs, h3]
            have hds : squeezeWsAux true ds = ds := by
              have hlen2 : ds.length ≤ n := by
                simp only [List.length_cons] at hlen
                omega
              exact (ih ds hlen2
                (allWsSpace_tail (allWsSpace_tail hws))
                (noDouble_tail hnd2) hhd2).2
            subst hsp
            simp [squeezeWsAux, hd, hds]
          · have hlen2 : (d :: ds).length ≤ n := by
              simp only [List.length_cons] at hlen ⊢
              omega
            simp only [Bool.not_eq_true] at hd
            exact (ih (d :: ds) hlen2 (allWsSpace_tail hws) (noDouble_tail hnd)
              (by simp [headNonWs, hd])).1
      constructor
      · simp [squeezeWsAux, hhd, hkey]
      · simp [squeezeWsAux, hhd, hkey]

theorem cleanChars_invariants (l : List Char) :
    allWsSpace (cleanChars l) = true ∧ noDouble (cleanChars l) = true ∧
      headNonWs (cleanChars l) = true := by
  refine ⟨?_, ?_, trimWs_headNonWs _⟩
  · exact trimTrail_allWsSpace (dropWhile_allWsSpace (squeezeWsAux_allWsSpace l false))
  · exact trimTrail_noDouble (dropWhile_noDouble (squeezeWsAux_noDouble l false))

theorem cleanChars_idem (l : List Char) : cleanChars (cleanChars l) = cleanChars l := by
  obtain ⟨hws, hnd, hhd⟩ := cleanChars_invariants l
  show trimWs (squeezeWs (cleanChars l)) = cleanChars l
  have hsq : squeezeWs (cleanChars l) = cleanChars l :=
    (squeezeWsAux_of_clean (cleanChars l).length _ le_rfl hws hnd hhd).1
  rw [hsq]
  show trimTrail ((cleanChars l).dropWhile wsChar) = cleanChars l
  rw [dropWhile_of_headNonWs hhd]
  show trimTrail (trimTrail ((squeezeWs l).dropWhile wsChar)) = cleanChars l
  rw [trimTrail_idem]
  rfl

theorem strLen_data (s : String) : s.length = s.data.length := rfl

theorem condenseText_clean_first (s : String) (n : Nat) :
    condenseText s n = condenseText (cleanString s) n := by
  unfold condenseText
  have h : (cleanString s).data = cleanChars s.data := rfl
  rw [h, cleanChars_idem]

theorem condenseText_length_le (s : String) (n : Nat) (hn : 1 ≤ n) :
    (condenseText s n).length ≤ n := by
  simp only [condenseText]
  by_cases h : (cleanChars s.data).length ≤ n
  · rw [if_pos h]
    simpa [strLen_mk] using h
  · rw [if_neg h]
    rw [strLen_append, strLen_mk]
    have hne : ¬ n = 0 := by omega
    rw [if_neg hne]
    rw [List.length_take]
    have h1 : ("…" : String).length = 1 := rfl
    omega

theorem condenseText_of_short {s : String} {n : Nat}
    (h : (cleanChars s.data).length ≤ n) :
    condenseText s n = String.mk (cleanChars s.data) := by
  simp only [condenseText]
  rw [if_pos h]

theorem condenseText_of_long {s : String} {n : Nat} (hn : 1 ≤ n)
    (h : n < (cleanChars s.data).length) :
    condenseText s n = String.mk ((cleanChars s.data).take (n - 1)) ++ "…" ∧
      (condenseText s n).length = n := by
  have hnle : ¬ (cleanChars s.data).length ≤ n := by omega
  have hne : ¬ n = 0 := by omega
  constructor
  · simp only [condenseText]
    rw [if_neg hnle, if_neg hne]
  · simp only [condenseText]
    rw [if_neg hnle, if_neg hne, strLen_append, strLen_mk, List.length_take]
    have h1 : ("…" : String).length = 1 := rfl
    omega

theorem condenseText_idem (s : String) (n : Nat) (h : s.length ≤ n) :
    condenseText (condenseText s n) n = condenseText s n := by
  have hclean : (cleanChars s.data).length ≤ n :=
    le_trans (cleanChars_length s.data) (by rw [← strLen_data]; exact h)
  have h1 : condenseText s n = String.mk (cleanChars s.data) :=
    condenseText_of_short hclean
  rw [h1]
  have h2 : cleanChars (String.mk (cleanChars s.data)).data = cleanChars s.data := by
    show cleanChars (cleanChars s.data) = cleanChars s.data
    exact cleanChars_idem _
  simp only [condenseText]
  rw [h2, if_pos hclean]

/-! ### Claim theorems -/

/-- Claim C9 (amended): `condense(text, N)` is idempotent on inputs of at
most `N` characters; for `N ≥ 1` its output never exceeds `N` characters
(for `N = 0` the JS negative slice index makes the truncated output keep
`length - 1` characters plus the marker, exceeding the bound — see the
counterexample); and the whitespace collapse and trim are applied before
the length check, so condensing the cleaned text gives the same result. -/
theorem condenseText_spec :
    (∀ (s : String) (n : Nat), s.length ≤ n →
        condenseText (condenseText s n) n = condenseText s n) ∧
    (∀ (s : String) (n : Nat), 1 ≤ n → (condenseText s n).length ≤ n) ∧
    (∀ (s : String) (n : Nat), condenseText s n = condenseText (cleanString s) n) :=
  ⟨condenseText_idem, condenseText_length_le, condenseText_clean_first⟩

/-- Witness for C9 at a concrete input. -/
theorem condenseText_spec_witness :
    condenseText (condenseText "a  b" 5) 5 = condenseText "a  b" 5 ∧
      (condenseText "a  b" 5).length ≤ 5 :=
  ⟨condenseText_spec.1 "a  b" 5 (by decide), condenseText_spec.2.1 "a  b" 5 (by decide)⟩

/-- Counterexample to C9 as stated: for `N = 0` the input `"ab"` is longer
than `N`, yet the result `"a…"` (JS `slice(0, -1)` plus the marker) has
length 2 > 0, so the output-length bound fails at `N = 0`. -/
theorem condenseText_spec_cex :
    0 < ("ab" : String).length ∧ condenseText "ab" 0 = "a…" ∧
      ¬ (condenseText "ab" 0).length ≤ 0 := by
  refine ⟨by decide, by decide, by decide⟩

/-- Claim C3 (amended): on a non-empty input string whose `JSON.parse`
throws, `summarize` returns the condensed raw text as `outline`,
`leafHighlights` and `condensedRaw`, with an empty `detailMap`; the
condensed text is at most 1800 characters, equals the whitespace-collapsed
input when that is at most 1800 characters, and is truncated to 1799
characters plus the ellipsis marker exactly when the whitespace-COLLAPSED
input (not the original input, see the counterexample) exceeds 1800
characters. An absent or empty input yields all-empty outputs for any parse
outcome. -/
theorem summarize_malformed_fallback :
    (∀ (raw : String), raw ≠ "" →
      (summarizeKnowledgeContent (some raw) none).outline = condenseText raw 1800 ∧
      (summarizeKnowledgeContent (some raw) none).leafHighlights = condenseText raw 1800 ∧
      (summarizeKnowledgeContent (some raw) none).condensedRaw = condenseText raw 1800 ∧
      (summarizeKnowledgeContent (some raw) none).detailMap = [] ∧
      (condenseText raw 1800).length ≤ 1800 ∧
      ((cleanChars raw.data).length ≤ 1800 →
        condenseText raw 1800 = String.mk (cleanChars raw.data)) ∧
      (1800 < (cleanChars raw.data).length →
        condenseText raw 1800 = String.mk ((cleanChars raw.data).take 1799) ++ "…" ∧
          (condenseText raw 1800).length = 1800)) ∧
    (∀ parsed,
      summarizeKnowledgeContent none parsed =
        { outline := "", leafHighlights := "", detailMap := [], condensedRaw := "" } ∧
      summarizeKnowledgeContent (some "") parsed =
        { outline := "", leafHighlights := "", detailMap := [], condensedRaw := "" }) := by
  constructor
  · intro raw hraw
    have hres : summarizeKnowledgeContent (some raw) none =
        { outline := condenseText raw 1800, leafHighlights := condenseText raw 1800,
          detailMap := [], condensedRaw := condenseText raw 1800 } := by
      simp only [summarizeKnowledgeContent]
      rw [if_neg hraw]
    rw [hres]
    refine ⟨rfl, rfl, rfl, rfl, condenseText_length_le raw 1800 (by omega), ?_, ?_⟩
    · intro h
      exact condenseText_of_short h
    · intro h
      exact condenseText_of_long (by omega) h
  · intro parsed
    constructor
    · rfl
    · simp [summarizeKnowledgeContent]

/-- Witness for C3 at a concrete non-JSON input. -/
theorem summarize_malformed_fallback_witness :
    (summarizeKnowledgeContent (some "oops oops") none).outline = "oops oops" ∧
      (summarizeKnowledgeContent (some "oops oops") none).detailMap = [] := by
  have h := summarize_malformed_fallback.1 "oops oops" (by decide)
  refine ⟨?_, h.2.2.2.1⟩
  rw [h.1, h.2.2.2.2.2.1 (by decide)]
  decide

set_option maxRecDepth 40000 in
/-- Counterexample to C3 as stated: the input `"x"` followed by 1800 spaces
is not valid JSON (so `JSON.parse` throws, modelled by the `none` argument)
and has 1801 > 1800 characters, yet the returned text is the single
character `"x"` with no trailing ellipsis marker: the truncation condition
is checked against the whitespace-collapsed text, not the original input. -/
theorem summarize_malformed_fallback_cex :
    1800 < c3raw.length ∧
      (summarizeKnowledgeContent (some c3raw) none).outline = "x" ∧
      (summarizeKnowledgeContent (some c3raw) none).outline.data.getLast? = some 'x' := by
  refine ⟨by decide, by decide, by decide⟩

/-- Claim C10: an absent exam plan, or an empty one, makes the fan-out step
return an empty task list: no scatter task is emitted and no per-type
handler is dispatched. -/
theorem routeExamPlan_empty_plan (state : RouteState) :
    routeExamPlan { state with examPlan := none } = [] ∧
      routeExamPlan { state with examPlan := some [] } = [] :=
  ⟨rfl, rfl⟩

/-- Claim C4: in all three handlers the enriched difficulty is
`Math.max(planItem.difficulty, response.difficulty)`, hence at least the
plan item's requested difficulty — also when the generator reports a lower
value. -/
theorem enrich_difficulty_clamp (planItem : ExamPlanItem) (r1 r2 : ChoiceResponse)
    (r3 : ShortAnswerResponse) :
    (enrichSingleChoice planItem r1).difficulty = max planItem.difficulty r1.difficulty ∧
    planItem.difficulty ≤ (enrichSingleChoice planItem r1).difficulty ∧
    (enrichMultipleChoices planItem r2).difficulty = max planItem.difficulty r2.difficulty ∧
    planItem.difficulty ≤ (enrichMultipleChoices planItem r2).difficulty ∧
    (enrichShortAnswer planItem r3).difficulty = max planItem.difficulty r3.difficulty ∧
    planItem.difficulty ≤ (enrichShortAnswer planItem r3).difficulty :=
  ⟨rfl, le_max_left _ _, rfl, le_max_left _ _, rfl, le_max_left _ _⟩

/-- Claim C5: `lookupKnowledgeDetail` equals the staged lookup that tries
the five stages in the fixed order (truthy exact match on the trimmed
query, truthy exact match on the whitespace-stripped query, exact
key-equality scan, bidirectional substring containment in insertion order,
case-insensitive substring containment) and returns the first stage's first
match; in particular, with both an exact-match key and a longer containing
key in the map (either insertion order), the exact-match detail wins. -/
theorem lookupKnowledgeDetail_stage_order :
    (∀ (m : List (String × String)) (point : String),
        lookupKnowledgeDetail m point = lookupStaged m point) ∧
    (∀ d1 d2 : String, d1 ≠ "" →
        lookupKnowledgeDetail [("煤矸石", d1), ("煤矸石的形成", d2)] "煤矸石" = some d1 ∧
        lookupKnowledgeDetail [("煤矸石的形成", d2), ("煤矸石", d1)] "煤矸石" = some d1) := by
  constructor
  · intro m point
    unfold lookupKnowledgeDetail lookupStaged
    by_cases h0 : jsTrim point = ""
    · rw [if_pos h0, if_pos h0]
    · rw [if_neg h0, if_neg h0]
      simp only [firstSome]
      by_cases h1 : truthyStr (mapGet m (jsTrim point)) = true
      · rcases hm : mapGet m (jsTrim point) with _ | s
        · rw [hm] at h1
          simp [truthyStr] at h1
        · rw [hm] at h1
          rw [if_pos h1]
          simp [lookupStage1, h1, hm]
      · rw [if_neg h1]
        have e1 : lookupStage1 m (jsTrim point) = none := by
          simp [lookupStage1, h1]
        rw [e1]
        by_cases h2 : truthyStr (mapGet m (stripWs (jsTrim point))) = true
        · rcases hm : mapGet m (stripWs (jsTrim point)) with _ | s
          · rw [hm] at h2
            simp [truthyStr] at h2
          · rw [hm] at h2
            rw [if_pos h2]
            simp [lookupStage2, h2, hm]
        · rw [if_neg h2]
          have e2 : lookupStage2 m (jsTrim point) = none := by
            simp [lookupStage2, h2]
          rw [e2]
          rcases h3 : m.find? (fun kv => kv.1 == jsTrim point) with _ | kv3 <;>
            rcases h4 : m.find?
                (fun kv => strContains kv.1 (jsTrim point) ||
                  strContains (jsTrim point) kv.1) with _ | kv4 <;>
              rcases h5 : m.find?
                  (fun kv => strContains (lowerStr kv.1) (lowerStr (jsTrim point))) with
                  _ | kv5 <;>
                simp [lookupStage3, lookupStage4, lookupStage5, h3, h4, h5]
  · intro d1 d2 h
    have hbeq : (d1 == "") = false := beq_eq_false_iff_ne.mpr h
    have htr : truthyStr (some d1) = true := by
      simp [truthyStr, hbeq]
    have ht : jsTrim "煤矸石" = "煤矸石" := by decide
    have hne : ¬ ("煤矸石" : String) = "" := by decide
    constructor
    · have hget : mapGet [("煤矸石", d1), ("煤矸石的形成", d2)] "煤矸石" = some d1 := by
        simp [mapGet, List.find?]
      simp only [lookupKnowledgeDetail, ht]
      rw [if_neg hne, hget, if_pos htr]
    · have hne2 : (("煤矸石的形成" : String) == "煤矸石") = false := by decide
      have hget : mapGet [("煤矸石的形成", d2), ("煤矸石", d1)] "煤矸石" = some d1 := by
        simp [mapGet, List.find?, hne2]
      simp only [lookupKnowledgeDetail, ht]
      rw [if_neg hne, hget, if_pos htr]

/-- Witness for C5: the spec's concrete two-key example, in both insertion
orders. -/
theorem lookupKnowledgeDetail_stage_order_witness :
    lookupKnowledgeDetail [("煤矸石", "甲"), ("煤矸石的形成", "乙")] "煤矸石" = some "甲" ∧
      lookupKnowledgeDetail [("煤矸石的形成", "乙"), ("煤矸石", "甲")] "煤矸石" = some "甲" :=
  lookupKnowledgeDetail_stage_order.2 "甲" "乙" (by decide)

theorem jsNullish_eq (a b : Option JsVal) :
    jsNullish a b = if isNullish a then b else a := by
  rcases a with _ | v
  · rfl
  · cases v <;> rfl

theorem labelCandidate_eq (fields : List (String × JsVal)) :
    labelCandidate fields =
      match firstPresentNonNull fields with
      | some v => v
      | none => .vstr "" := by
  unfold labelCandidate firstPresentNonNull
  rw [jsNullish_eq, jsNullish_eq, jsNullish_eq, jsNullish_eq]
  by_cases h1 : isNullish (objGet fields "id") = true
  · by_cases h2 : isNullish (objGet fields "name") = true
    · by_cases h3 : isNullish (objGet fields "title") = true
      · by_cases h4 : isNullish (objGet fields "label") = true
        · simp [h1, h2, h3, h4]
        · rcases hid : objGet fields "label" with _ | v
          · rw [hid] at h4; exact absurd rfl h4
          · rw [hid] at h4
            simp [h1, h2, h3, h4, hid]
      · rcases hid : objGet fields "title" with _ | v
        · rw [hid] at h3; exact absurd rfl h3
        · rw [hid] at h3
          simp [h1, h2, h3, hid]
    · rcases hid : objGet fields "name" with _ | v
      · rw [hid] at h2; exact absurd rfl h2
      · rw [hid] at h2
        simp [h1, h2, hid]
  · rcases hid : objGet fields "id" with _ | v
    · rw [hid] at h1; exact absurd rfl h1
    · rw [hid] at h1
      simp [h1, hid]

/-- Claim C1 (amended): the label computed at lines 125-126 is determined by
the first PRESENT, NON-NULL candidate among `id`, `name`, `title`, `label`
(the `??` chain skips only `undefined` and `null`): its trimmed string form
when non-empty, and the synthetic `未命名节点(depth+1)` placeholder when it
trims to empty — in particular a present-but-empty earlier field is NOT
skipped in favour of a later non-empty one (see the counterexample), and
the placeholder is also used when no candidate is present. -/
theorem nodeTitle_label_rule (fields : List (String × JsVal)) (path : List String) :
    nodeTitle fields path =
      match firstPresentNonNull fields with
      | some v =>
        if jsTrim (safeToString (some v)) = "" then placeholderLabel path
        else jsTrim (safeToString (some v))
      | none => placeholderLabel path := by
  simp only [nodeTitle]
  rw [labelCandidate_eq]
  rcases hf : firstPresentNonNull fields with _ | v
  · have he : jsTrim (safeToString (some (JsVal.vstr ""))) = "" := rfl
    simp [he]
  · rfl

/-- Counterexample to C1 as stated: on the node
`{"id": "", "name": "Foo"}` the claimed rule (skip the present-but-empty
`id`, use `name`) yields `"Foo"`, but the code's `??` chain keeps the
present empty `id` and falls back to the placeholder `未命名节点1`. -/
theorem nodeTitle_label_rule_cex :
    claimLabelRule [("id", JsVal.vstr ""), ("name", JsVal.vstr "Foo")] [] = "Foo" ∧
      nodeTitle [("id", JsVal.vstr ""), ("name", JsVal.vstr "Foo")] [] = "未命名节点1" ∧
      ("未命名节点1" : String) ≠ "Foo" := by
  refine ⟨by decide, by decide, by decide⟩

/-- Claim C7 (amended): any two sibling nodes (same ancestor path) that both
lack a recognizable label receive the SAME synthetic placeholder label,
`未命名节点(depth+1)`, derived from the shared depth alone — the placeholder
distinguishes depths, not siblings, so unlabeled siblings collide rather
than staying pairwise distinct. -/
theorem unlabeled_siblings_placeholder (f1 f2 : List (String × JsVal))
    (path : List String)
    (h1 : jsTrim (safeToString (some (labelCandidate f1))) = "")
    (h2 : jsTrim (safeToString (some (labelCandidate f2))) = "") :
    nodeTitle f1 path = placeholderLabel path ∧
      nodeTitle f2 path = placeholderLabel path ∧
      nodeTitle f1 path = nodeTitle f2 path := by
  have e1 : nodeTitle f1 path = placeholderLabel path := by
    simp [nodeTitle, h1]
  have e2 : nodeTitle f2 path = placeholderLabel path := by
    simp [nodeTitle, h2]
  exact ⟨e1, e2, e1.trans e2.symm⟩

/-- Witness for C7: two concrete unlabeled siblings at the same path. -/
theorem unlabeled_siblings_placeholder_witness :
    nodeTitle [] ["根"] = placeholderLabel ["根"] ∧
      nodeTitle [("a", JsVal.vstr "b")] ["根"] = placeholderLabel ["根"] ∧
      nodeTitle [] ["根"] = nodeTitle [("a", JsVal.vstr "b")] ["根"] :=
  unlabeled_siblings_placeholder [] [("a", JsVal.vstr "b")] ["根"] (by decide) (by decide)

set_option maxRecDepth 10000 in
/-- Counterexample to C7 as stated: in the tree `c7tree` the two unlabeled
sibling leaves both get the label `未命名节点2`, so the placeholder labels
within this sibling set are NOT pairwise distinct. -/
theorem unlabeled_siblings_placeholder_cex :
    ((traverseChildren [c7tree] [] ⟨[], []⟩).leaves.map (fun leaf => leaf.title)) =
        ["未命名节点2", "未命名节点2"] ∧
      ¬ List.Pairwise (fun a b => a ≠ b)
          ((traverseChildren [c7tree] [] ⟨[], []⟩).leaves.map (fun leaf => leaf.title)) := by
  have hev : (traverseChildren [c7tree] [] ⟨[], []⟩).leaves.map (fun leaf => leaf.title) =
      ["未命名节点2", "未命名节点2"] := by
    simp +decide [c7tree, traverseChildren, traverse, childrenOf, objGet, List.find?]
  refine ⟨hev, ?_⟩
  rw [hev]
  decide

theorem chunkFor_length (state : RouteState) (item : ExamPlanItem) (c : Nat) :
    (chunkFor state item c).length = planCountOf item := by
  simp [chunkFor]

theorem chunkFor_mem {state : RouteState} {item : ExamPlanItem} {c : Nat}
    {t : TaggedSend} (h : t ∈ chunkFor state item c) :
    t.send.node = item.questionType ∧
      t.send.planItem = item ∧
      t.send.instructions = buildQuestionInstruction
        { course := state.courseTitle.getD "", planItem := item,
          planStrategy := state.planStrategy, studentProfile := profileOf state,
          rawKnowledge := knowledgeContextFor state item, order := t.order } ∧
      ∃ i, i < planCountOf item ∧ t.order = c + 1 + i := by
  simp only [chunkFor, List.mem_map, List.mem_range] at h
  obtain ⟨i, hi, rfl⟩ := h
  exact ⟨rfl, rfl, rfl, i, hi, rfl⟩

theorem chunkFor_orders (state : RouteState) (item : ExamPlanItem) (c : Nat) :
    (chunkFor state item c).map (fun t => t.order) =
      (List.range (planCountOf item)).map (fun i => c + 1 + i) := by
  simp [chunkFor, List.map_map]

theorem routeChunksAux_length (state : RouteState) :
    ∀ (plan : List ExamPlanItem) (c : Nat),
      (routeChunksAux state c plan).length = plan.length := by
  intro plan
  induction plan with
  | nil => intro c; rfl
  | cons item rest ih =>
    intro c
    simp [routeChunksAux, ih]

theorem routeChunksAux_getD (state : RouteState) :
    ∀ (plan : List ExamPlanItem) (c i : Nat), i < plan.length →
      ∃ c', (routeChunksAux state c plan).getD i [] =
        chunkFor state (plan.getD i default) c' := by
  intro plan
  induction plan with
  | nil =>
    intro c i hi
    exact absurd hi (by simp)
  | cons item rest ih =>
    intro c i hi
    cases i with
    | zero => exact ⟨c, rfl⟩
    | succ j =>
      have hj : j < rest.length := by simpa using hi
      obtain ⟨c', hc'⟩ := ih (c + planCountOf item) j hj
      exact ⟨c', by simpa [routeChunksAux] using hc'⟩

theorem routeChunksAux_orders (state : RouteState) :
    ∀ (plan : List ExamPlanItem) (c : Nat),
      List.Pairwise (· < ·)
        (((routeChunksAux state c plan).flatten).map (fun t => t.order)) ∧
      ∀ t ∈ (routeChunksAux state c plan).flatten, c < t.order := by
  intro plan
  induction plan with
  | nil => intro c; simp [routeChunksAux]
  | cons item rest ih =>
    intro c
    have hchunk : List.Pairwise (· < ·)
        ((chunkFor state item c).map (fun t => t.order)) := by
      rw [chunkFor_orders]
      refine List.Pairwise.map _ ?_ (List.pairwise_lt_range (planCountOf item))
      intro a b hab
      omega
    have hbound : ∀ t ∈ chunkFor state item c,
        c < t.order ∧ t.order ≤ c + planCountOf item := by
      intro t ht
      obtain ⟨-, -, -, i, hi, hio⟩ := chunkFor_mem ht
      omega
    obtain ⟨ihp, ihb⟩ := ih (c + planCountOf item)
    constructor
    · simp only [routeChunksAux, List.flatten_cons, List.map_append]
      rw [List.pairwise_append]
      refine ⟨hchunk, ihp, ?_⟩
      intro a ha b hb
      simp only [List.mem_map] at ha hb
      obtain ⟨ta, hta, rfl⟩ := ha
      obtain ⟨tb, htb, rfl⟩ := hb
      have h1 := (hbound ta hta).2
      have h2 := ihb tb htb
      omega
    · intro t ht
      simp only [routeChunksAux, List.flatten_cons, List.mem_append] at ht
      rcases ht with ht | ht
      · exact (hbound t ht).1
      · have := ihb t ht
        omega

theorem planCountOf_eq {item : ExamPlanItem} (h1 : 1 ≤ item.questionCount)
    (h3 : item.questionCount ≤ 3) : planCountOf item = item.questionCount.toNat := by
  unfold planCountOf
  rw [max_def, min_def]
  split_ifs <;> omega

theorem routeExamPlanTagged_eq (state : RouteState) (plan : List ExamPlanItem)
    (hplan : state.examPlan = some plan) :
    routeExamPlanTagged state = (routeChunks state plan).flatten := by
  unfold routeExamPlanTagged
  rw [hplan]
  show (if plan.length = 0 then [] else (routeChunks state plan).flatten) =
    (routeChunks state plan).flatten
  by_cases hlen : plan.length = 0
  · rw [if_pos hlen]
    have hnil : plan = [] := List.eq_nil_of_length_eq_zero hlen
    subst hnil
    rfl
  · rw [if_neg hlen]

/-- Claim C2: under a present plan the emitted tagged tasks are exactly the
concatenation of per-item chunks; for every plan item with
`1 ≤ questionCount ≤ 3` its chunk has exactly `questionCount` tasks, each
targeting that item's question type and carrying the instruction built with
the task's own order number; and the order numbers across the entire
emission are strictly increasing (single shared counter, never reset
between items). -/
theorem routeExamPlan_fanout (state : RouteState) (plan : List ExamPlanItem)
    (hplan : state.examPlan = some plan) :
    routeExamPlanTagged state = (routeChunks state plan).flatten ∧
      routeExamPlan state = (routeExamPlanTagged state).map (fun t => t.send) ∧
      (∀ i, i < plan.length →
        1 ≤ (plan.getD i default).questionCount →
        (plan.getD i default).questionCount ≤ 3 →
        ((routeChunks state plan).getD i []).length =
            (plan.getD i default).questionCount.toNat ∧
          ∀ t ∈ (routeChunks state plan).getD i [],
            t.send.node = (plan.getD i default).questionType ∧
            t.send.instructions = buildQuestionInstruction
              { course := state.courseTitle.getD "",
                planItem := plan.getD i default,
                planStrategy := state.planStrategy,
                studentProfile := profileOf state,
                rawKnowledge := knowledgeContextFor state (plan.getD i default),
                order := t.order }) ∧
      List.Pairwise (· < ·) ((routeExamPlanTagged state).map (fun t => t.order)) := by
  have hflat := routeExamPlanTagged_eq state plan hplan
  refine ⟨hflat, rfl, ?_, ?_⟩
  · intro i hi h1 h3
    obtain ⟨c', hc'⟩ := routeChunksAux_getD state plan 0 i hi
    have hrw : (routeChunks state plan).getD i [] =
        chunkFor state (plan.getD i default) c' := hc'
    rw [hrw]
    constructor
    · rw [chunkFor_length, planCountOf_eq h1 h3]
    · intro t ht
      obtain ⟨hn, -, hinstr, -⟩ := chunkFor_mem ht
      exact ⟨hn, hinstr⟩
  · rw [hflat]
    exact (routeChunksAux_orders state plan 0).1

/-- Witness for C2 at a concrete one-item plan requesting two questions. -/
theorem routeExamPlan_fanout_witness :
    ((routeChunks c2state [c2item]).getD 0 []).length = 2 ∧
      List.Pairwise (· < ·) ((routeExamPlanTagged c2state).map (fun t => t.order)) := by
  have h := routeExamPlan_fanout c2state [c2item] rfl
  constructor
  · have h2 := (h.2.2.1 0 (by decide) (by decide) (by decide)).1
    rw [h2]
    decide
  · exact h.2.2.2

theorem knowledgeDetails_foldl_nil {state : RouteState}
    {points : List String}
    (hfail : ∀ pt ∈ points, lookupKnowledgeDetail state.knowledgeMap pt = none) :
    ∀ acc : List String,
      points.foldl
        (fun (acc : List String) point =>
          match lookupKnowledgeDetail state.knowledgeMap point with
          | some detail => if acc.contains detail then acc else acc ++ [detail]
          | none => acc)
        acc = acc := by
  induction points with
  | nil => intro acc; rfl
  | cons pt rest ih =>
    intro acc
    have hpt : lookupKnowledgeDetail state.knowledgeMap pt = none :=
      hfail pt (List.mem_cons_self pt rest)
    have hrest : ∀ q ∈ rest, lookupKnowledgeDetail state.knowledgeMap q = none :=
      fun q hq => hfail q (List.mem_cons_of_mem pt hq)
    simp only [List.foldl_cons, hpt]
    exact ih hrest acc

theorem knowledgeContextFor_of_fail {state : RouteState} {item : ExamPlanItem}
    (hfail : ∀ pt ∈ item.knowledgePoints,
      lookupKnowledgeDetail state.knowledgeMap pt = none)
    (hne : state.knowledgeQuestionDigest ≠ "") :
    knowledgeContextFor state item = state.knowledgeQuestionDigest := by
  unfold knowledgeContextFor
  rw [knowledgeDetails_foldl_nil hfail []]
  have hbne : (state.knowledgeQuestionDigest != "") = true := bne_iff_ne.mpr hne
  simp [hbne]

theorem knowledgeSection_mem {digest : String} (p : InstructionParams)
    (hp : p.rawKnowledge = digest) (hne : digest ≠ "") (hlen : digest.length ≤ 2000) :
    ("相关知识点摘要：\n" ++ digest) ∈ instructionParts p := by
  have hbne : (digest != "") = true := bne_iff_ne.mpr hne
  have hgt : ¬ digest.length > 2000 := by omega
  have hks : knowledgeSectionParts digest = ["相关知识点摘要：\n" ++ digest] := by
    simp only [knowledgeSectionParts, hbne, if_true]
    rw [if_neg hgt]
  simp only [instructionParts, hp, hks]
  simp [List.mem_append]

/-- Claim C8 (amended): when every knowledge point of a plan item fails
lookup, its scatter tasks are built with the global knowledge digest as
their knowledge context; provided the digest is non-empty and AT MOST 2000
characters, each task's instruction is the assembly whose parts include the
knowledge section `相关知识点摘要：` followed by the digest verbatim. (For a
digest longer than 2000 characters the section holds a truncated copy, not
the verbatim digest — see the counterexample.) -/
theorem route_digest_fallback (state : RouteState) (plan : List ExamPlanItem)
    (i : Nat) (hplan : state.examPlan = some plan) (hi : i < plan.length)
    (hfail : ∀ pt ∈ (plan.getD i default).knowledgePoints,
      lookupKnowledgeDetail state.knowledgeMap pt = none)
    (hne : state.knowledgeQuestionDigest ≠ "")
    (hlen : state.knowledgeQuestionDigest.length ≤ 2000) :
    routeExamPlanTagged state = (routeChunks state plan).flatten ∧
      ∀ t ∈ (routeChunks state plan).getD i [],
        t.send.instructions = buildQuestionInstruction
          { course := state.courseTitle.getD "", planItem := plan.getD i default,
            planStrategy := state.planStrategy, studentProfile := profileOf state,
            rawKnowledge := state.knowledgeQuestionDigest, order := t.order } ∧
        ("相关知识点摘要：\n" ++ state.knowledgeQuestionDigest) ∈ instructionParts
          { course := state.courseTitle.getD "", planItem := plan.getD i default,
            planStrategy := state.planStrategy, studentProfile := profileOf state,
            rawKnowledge := state.knowledgeQuestionDigest, order := t.order } := by
  refine ⟨routeExamPlanTagged_eq state plan hplan, ?_⟩
  intro t ht
  obtain ⟨c', hc'⟩ := routeChunksAux_getD state plan 0 i hi
  have hrw : (routeChunks state plan).getD i [] =
      chunkFor state (plan.getD i default) c' := hc'
  rw [hrw] at ht
  obtain ⟨-, -, hinstr, -⟩ := chunkFor_mem ht
  have hctx : knowledgeContextFor state (plan.getD i default) =
      state.knowledgeQuestionDigest := knowledgeContextFor_of_fail hfail hne
  rw [hctx] at hinstr
  refine ⟨hinstr, ?_⟩
  exact knowledgeSection_mem _ rfl hne hlen

set_option maxRecDepth 40000 in
/-- Witness for C8 at a concrete state whose digest `"D"` is short enough. -/
theorem route_digest_fallback_witness :
    ("相关知识点摘要：\nD" : String) ∈ instructionParts
      { course := "C", planItem := c8item, planStrategy := "",
        studentProfile := profileOf c8state, rawKnowledge := "D",
        order := (((routeChunks c8state [c8item]).getD 0 []).getD 0 default).order } := by
  have h := route_digest_fallback c8state [c8item] 0 rfl (by decide) (by decide)
    (by decide) (by decide)
  have hm : ((routeChunks c8state [c8item]).getD 0 []).getD 0 default ∈
      (routeChunks c8state [c8item]).getD 0 [] := by decide
  exact (h.2 _ hm).2

set_option maxRecDepth 10000 in
/-- Counterexample to C8 as stated: with the 2001-character digest
`c8bigDigest`, every knowledge point of the plan item fails lookup and the
emitted task's instruction is built from the digest, but its knowledge
section holds the first 2000 characters plus `"..."` rather than the digest
verbatim: the verbatim section (length 2010) is NOT among the instruction's
parts (whose knowledge section has length 2012). -/
theorem route_digest_fallback_cex :
    (∀ pt ∈ c8item.knowledgePoints,
        lookupKnowledgeDetail c8stateBig.knowledgeMap pt = none) ∧
      c8taskBig ∈ (routeChunks c8stateBig [c8item]).getD 0 [] ∧
      c8taskBig.send.instructions = buildQuestionInstruction c8paramsBig ∧
      ("相关知识点摘要：\n" ++ c8bigDigest) ∉ instructionParts c8paramsBig := by
  have hdata : c8bigDigest.data = List.replicate 2001 'a' := rfl
  have hdlen : c8bigDigest.length = 2001 := by
    rw [strLen_data, hdata, List.length_replicate]
  have h9 : ("相关知识点摘要：\n" : String).length = 9 := rfl
  have hslen : ("相关知识点摘要：\n" ++ c8bigDigest).length = 2010 := by
    rw [strLen_append, hdlen, h9]
  have hbne : (c8bigDigest != "") = true := by decide
  have hgt : c8bigDigest.length > 2000 := by rw [hdlen]; omega
  have hkpart : knowledgeSectionParts c8bigDigest =
      ["相关知识点摘要：\n" ++ (String.mk (c8bigDigest.data.take 2000) ++ "...")] := by
    simp only [knowledgeSectionParts, hbne, if_true]
    rw [if_pos hgt]
  have hklen :
      ("相关知识点摘要：\n" ++ (String.mk (c8bigDigest.data.take 2000) ++ "...")).length =
        2012 := by
    have h1 : (String.mk (c8bigDigest.data.take 2000)).length = 2000 := by
      rw [strLen_mk, hdata, List.length_take, List.length_replicate]
      omega
    have h3 : ("..." : String).length = 3 := rfl
    rw [strLen_append, strLen_append, h1, h3, h9]
  refine ⟨by decide, ?_, ?_, ?_⟩
  · rw [show (routeChunks c8stateBig [c8item]).getD 0 [] = [c8taskBig] from rfl]
    exact List.mem_singleton_self _
  · rfl
  · intro hmem
    simp only [instructionParts, c8paramsBig, c8item, hkpart, if_true,
      List.mem_append, List.mem_cons, List.not_mem_nil, or_false, or_assoc] at hmem
    rcases hmem with h|h|h|h|h|h|h|h|h|h|h|h|h|h <;>
      first
      | (have hl := congrArg String.length h
         rw [hslen, hklen] at hl
         exact absurd hl (by decide))
      | (have hl := congrArg String.length h
         rw [hslen] at hl
         exact absurd hl (by decide))

theorem mapGet_eq_none_iff {m : List (String × String)} {k : String} :
    mapGet m k = none ↔ m.find? (fun kv => kv.1 == k) = none := by
  unfold mapGet
  cases m.find? (fun kv => kv.1 == k) <;> simp

theorem truthy_of_ne {v : String} (h : v ≠ "") : truthyStr (some v) = true := by
  simp [truthyStr, beq_eq_false_iff_ne.mpr h]

theorem mapGet_none_of_not_truthy {m : List (String × String)} {k : String}
    (inv : ∀ v, mapGet m k = some v → v ≠ "")
    (hnt : truthyStr (mapGet m k) = false) : mapGet m k = none := by
  rcases hm : mapGet m k with _ | v
  · rfl
  · rw [hm] at hnt
    rw [truthy_of_ne (inv v hm)] at hnt
    exact absurd hnt (by simp)

theorem mapGet_mapSet_self {m : List (String × String)} {k v : String}
    (h : mapGet m k = none) : mapGet (mapSet m k v) k = some v := by
  have hf : m.find? (fun kv => kv.1 == k) = none := mapGet_eq_none_iff.mp h
  simp [mapSet, hf, mapGet, List.find?_append]

theorem find?_update_ne {k k' v : String} (h : ¬ k' = k) :
    ∀ m : List (String × String),
      (m.map (fun kv => if kv.1 == k' then (kv.1, v) else kv)).find?
          (fun kv => kv.1 == k) =
        m.find? (fun kv => kv.1 == k) := by
  intro m
  induction m with
  | nil => rfl
  | cons kv rest ih =>
    simp only [List.map_cons]
    by_cases hk : (kv.1 == k) = true
    · have h1 : ((if (kv.1 == k') = true then (kv.1, v) else kv).1 == k) = true := by
        split <;> simpa using hk
      have hk'f : (kv.1 == k') = false := by
        have hkk : kv.1 = k := eq_of_beq hk
        exact beq_eq_false_iff_ne.mpr (by rw [hkk]; exact fun he => h he.symm)
      simp only [List.find?_cons, h1, hk, hk'f]
      simp [hk]
    · have h1 : ((if (kv.1 == k') = true then (kv.1, v) else kv).1 == k) = false := by
        rw [Bool.not_eq_true] at hk
        split <;> simpa using hk
      have hkf : (kv.1 == k) = false := by
        rw [Bool.not_eq_true] at hk
        exact hk
      simp only [List.find?_cons, h1, hkf]
      exact ih

theorem mapGet_mapSet_ne {m : List (String × String)} {k k' v : String}
    (h : ¬ k' = k) : mapGet (mapSet m k' v) k = mapGet m k := by
  unfold mapSet
  by_cases hp : (m.find? (fun kv => kv.1 == k')).isSome = true
  · rw [if_pos hp]
    unfold mapGet
    rw [find?_update_ne h m]
  · rw [if_neg hp]
    unfold mapGet
    rw [List.find?_append]
    have hone : ([(k', v)].find? (fun kv => kv.1 == k)) = none := by
      simp [List.find?, beq_eq_false_iff_ne.mpr h]
    rw [hone]
    cases m.find? (fun kv => kv.1 == k) <;> rfl

theorem applyRegs_get :
    ∀ (regs : List (String × String)) (m : List (String × String)) (k : String),
      k ≠ "" → (∀ r ∈ regs, r.2 ≠ "") →
      (∀ v, mapGet m k = some v → v ≠ "") →
      mapGet (applyRegs m regs) k =
        match mapGet m k with
        | some v => some v
        | none => (regs.find? (fun r => r.1 == k)).map (fun r => r.2) := by
  intro regs
  induction regs with
  | nil =>
    intro m k hk hv hinv
    rcases hm : mapGet m k with _ | v <;> simp [applyRegs, hm]
  | cons reg rest ih =>
    intro m k hk hv hinv
    have hvreg : reg.2 ≠ "" := hv reg (List.mem_cons_self _ _)
    have hvrest : ∀ r ∈ rest, r.2 ≠ "" := fun r hr => hv r (List.mem_cons_of_mem _ hr)
    show mapGet (applyRegs (applyReg m reg) rest) k = _
    by_cases hguard : (reg.1 != "" && !(truthyStr (mapGet m reg.1))) = true
    · have hm' : applyReg m reg = mapSet m reg.1 reg.2 := by
        unfold applyReg
        rw [if_pos hguard]
      rw [hm']
      rw [Bool.and_eq_true] at hguard
      obtain ⟨hne1, hnt⟩ := hguard
      rw [Bool.not_eq_true'] at hnt
      by_cases hkeq : reg.1 = k
      · subst hkeq
        have hnone : mapGet m reg.1 = none := mapGet_none_of_not_truthy hinv hnt
        have hset : mapGet (mapSet m reg.1 reg.2) reg.1 = some reg.2 :=
          mapGet_mapSet_self hnone
        have hinv' : ∀ v, mapGet (mapSet m reg.1 reg.2) reg.1 = some v → v ≠ "" := by
          intro v hveq
          rw [hset] at hveq
          cases hveq
          exact hvreg
        rw [ih _ _ hk hvrest hinv', hset, hnone]
        simp [List.find?_cons]
      · have hget' : mapGet (mapSet m reg.1 reg.2) k = mapGet m k :=
          mapGet_mapSet_ne hkeq
        have hinv' : ∀ v, mapGet (mapSet m reg.1 reg.2) k = some v → v ≠ "" := by
          intro v hveq
          rw [hget'] at hveq
          exact hinv v hveq
        rw [ih _ _ hk hvrest hinv', hget']
        have hpred : (reg.1 == k) = false := beq_eq_false_iff_ne.mpr hkeq
        rcases hm : mapGet m k with _ | v
        · simp only [List.find?_cons, hpred]
        · rfl
    · have hm' : applyReg m reg = m := by
        unfold applyReg
        rw [if_neg hguard]
      rw [hm']
      rw [ih _ _ hk hvrest hinv]
      rcases hm : mapGet m k with _ | v
      · have hpred : (reg.1 == k) = false := by
          rw [Bool.and_eq_true] at hguard
          rw [not_and_or] at hguard
          rcases hguard with hg | hg
          · have he : reg.1 = "" := by
              rw [Bool.not_eq_true, bne_eq_false_iff_eq] at hg
              exact hg
            rw [he]
            exact beq_eq_false_iff_ne.mpr (fun hc => hk hc.symm)
          · have htr : truthyStr (mapGet m reg.1) = true := by
              rw [Bool.not_eq_true] at hg
              simpa using hg
            refine beq_eq_false_iff_ne.mpr ?_
            intro hck
            rw [hck, hm] at htr
            exact absurd htr (by simp [truthyStr])
        simp only [List.find?_cons, hpred]
      · rfl

theorem joinSep_cons_length (sep a : String) (t : List String) :
    a.length ≤ (joinSep sep (a :: t)).length := by
  cases t with
  | nil => exact le_rfl
  | cons b r =>
    show a.length ≤ (a ++ sep ++ joinSep sep (b :: r)).length
    rw [strLen_append, strLen_append]
    omega

theorem joinSep_head_append (sep h : String) (A B : List String) :
    h.length ≤ (joinSep sep ([h] ++ A ++ B)).length := by
  rw [List.append_assoc, List.singleton_append]
  exact joinSep_cons_length sep h (A ++ B)

theorem leafDetailString_ne (idx : Nat) (leaf : FlattenedKnowledge) :
    leafDetailString idx leaf ≠ "" := by
  apply str_ne_empty_of_length_pos
  unfold leafDetailString
  refine lt_of_lt_of_le ?_ (joinSep_head_append _ _ _ _)
  rw [strLen_append, strLen_append]
  have h2 : (". " : String).length = 2 := rfl
  rw [h2]
  omega

theorem branchDetailString_ne (b : BranchInfo) : branchDetailString b ≠ "" := by
  apply str_ne_empty_of_length_pos
  unfold branchDetailString
  rw [strLen_append, strLen_append, strLen_append]
  have h1 : ("（子节点 " : String).length = 5 := rfl
  rw [h1]
  omega

theorem mapWithIndex_mem {α β : Type} {f : Nat → α → β} {y : β} :
    ∀ {i : Nat} {xs : List α}, y ∈ mapWithIndex f i xs → ∃ j a, a ∈ xs ∧ y = f j a := by
  intro i xs
  induction xs generalizing i with
  | nil => intro h; exact absurd h (by simp [mapWithIndex])
  | cons a as ih =>
    intro h
    simp only [mapWithIndex, List.mem_cons] at h
    rcases h with h | h
    · exact ⟨i, a, List.mem_cons_self _ _, h⟩
    · obtain ⟨j, b, hb, hy⟩ := ih h
      exact ⟨j, b, List.mem_cons_of_mem _ hb, hy⟩

theorem registrations_values_ne (acc : TraverseAcc) :
    ∀ r ∈ registrations acc, r.2 ≠ "" := by
  intro r hr
  unfold registrations at hr
  rcases List.mem_append.mp hr with h | h
  · unfold leafRegsAll at h
    obtain ⟨l, hl, hrl⟩ := List.mem_flatten.mp h
    obtain ⟨j, leaf, hleaf, rfl⟩ := mapWithIndex_mem hl
    unfold leafRegs at hrl
    obtain ⟨l2, hl2, hrl2⟩ := List.mem_flatten.mp hrl
    obtain ⟨v, hv, rfl⟩ := List.mem_map.mp hl2
    simp only [List.mem_cons, List.not_mem_nil, or_false] at hrl2
    rcases hrl2 with rfl | rfl
    · exact leafDetailString_ne j leaf
    · exact leafDetailString_ne j leaf
  · obtain ⟨l, hl, hrl⟩ := List.mem_flatten.mp h
    obtain ⟨b, hb, rfl⟩ := List.mem_map.mp hl
    unfold branchRegs at hrl
    simp only [List.mem_cons, List.not_mem_nil, or_false] at hrl
    rcases hrl with rfl | rfl
    · exact branchDetailString_ne b
    · exact branchDetailString_ne b

/-- Claim C6 (amended): no key in the detail map is ever overwritten: for
every non-empty key, the final value is the value of the FIRST registration
of that key in registration order — where the registration order is all
variant keys of the first 60 leaves (leaf loop, pre-order) followed by the
path keys of every branch (branch loop, pre-order). This order is NOT plain
pre-order document order: a branch that precedes a leaf in pre-order still
registers after it (see the counterexample). -/
theorem detailMap_first_writer (raw : String) (p : JsVal) (hraw : raw ≠ "")
    (k : String) (hk : k ≠ "") :
    mapGet ((summarizeKnowledgeContent (some raw) (some p)).detailMap) k =
      ((registrations (traverseChildren (rootNodes p) [] ⟨[], []⟩)).find?
          (fun r => r.1 == k)).map (fun r => r.2) := by
  have hres : (summarizeKnowledgeContent (some raw) (some p)).detailMap =
      buildDetailMap (traverseChildren (rootNodes p) [] ⟨[], []⟩) := by
    simp only [summarizeKnowledgeContent]
    rw [if_neg hraw]
  rw [hres]
  unfold buildDetailMap
  have h := applyRegs_get (registrations (traverseChildren (rootNodes p) [] ⟨[], []⟩))
    [] k hk (registrations_values_ne _)
    (by intro v hveq; exact absurd hveq (by simp [mapGet]))
  rw [h]
  rfl

/-- Witness for C6 at a concrete one-leaf tree. -/
theorem detailMap_first_writer_witness :
    mapGet ((summarizeKnowledgeContent (some "x") (some c6leafTree)).detailMap) "B" =
      ((registrations (traverseChildren (rootNodes c6leafTree) [] ⟨[], []⟩)).find?
          (fun r => r.1 == "B")).map (fun r => r.2) :=
  detailMap_first_writer "x" c6leafTree (by decide) "B" (by decide)

set_option maxRecDepth 10000 in
/-- Counterexample to C6 as stated: in the tree `c6tree` the root branch
(pre-order first) and its leaf child both register the key `"A"`. The first
registrant of `"A"` in PRE-ORDER is the branch, with detail
`A（子节点 1 个）`, but the final map holds the leaf's detail `1. A > A`,
because all leaf registrations run before any branch registration. -/
theorem detailMap_first_writer_cex :
    (claimPreorderRegsList [c6tree] [] 0).1.find? (fun r => r.1 == "A") =
        some ("A", "A（子节点 1 个）") ∧
      mapGet ((summarizeKnowledgeContent (some "x") (some c6tree)).detailMap) "A" =
        some "1. A > A" ∧
      ("1. A > A" : String) ≠ "A（子节点 1 个）" := by
  refine ⟨?_, ?_, by decide⟩
  · have hev : (claimPreorderRegsList [c6tree] [] 0).1.find? (fun r => r.1 == "A") =
        some ("A", "A（子节点 1 个）") := by
      simp +decide [c6tree, claimPreorderRegsList, claimPreorderRegs, childrenOf,
        objGet, List.find?]
    exact hev
  · have hacc : traverseChildren (rootNodes c6tree) [] ⟨[], []⟩ =
        ⟨[{ path := ["A", "A"], title := "A", description := "", sampleQuestions := [] }],
         [{ path := ["A"], title := "A", childCount := 1 }]⟩ := by
      simp +decide [c6tree, rootNodes, traverseChildren, traverse, childrenOf,
        objGet, List.find?]
    have hres : (summarizeKnowledgeContent (some "x") (some c6tree)).detailMap =
        buildDetailMap (traverseChildren (rootNodes c6tree) [] ⟨[], []⟩) := by
      simp only [summarizeKnowledgeContent]
      rw [if_neg (by decide : ¬ ("x" : String) = "")]
    rw [hres, hacc]
    decide

end CourseExamAgent
